import Mathlib

/-!
Shallow embedding of the DMAP codec from `src/dmap.rs` of backscatter-rs.

Modelling conventions:
* Rust byte buffers (`Vec<u8>`, `Cursor<Vec<u8>>`) become `List Nat` plus an
  explicit cursor position `Nat`; every byte produced by the encoders is `< 256`.
* Machine integers are modelled as `Int` (signed) or `Nat` (unsigned) with
  explicit two's-complement wrapping (`toUnsigned`, `toSigned`, `wrap32`) at the
  points where the Rust code casts or can overflow.  Release-mode Rust semantics
  (wrapping on arithmetic overflow) is used for `i32` arithmetic.
* `f32`/`f64` payloads are modelled as their little-endian bit patterns
  (`Nat` below `2^32` / `2^64`); the codec never computes with floats, it only
  moves the bits, and Rust's derived `PartialEq` on them is modelled by IEEE-754
  equality on bit patterns (`NaN ≠ NaN`, `+0 = -0`).
* Rust `String` values are modelled as their UTF-8 byte lists; `String::from_utf8`
  becomes a UTF-8 validity check (`utf8Valid`) followed by the identity.
* `bytemuck::try_from_bytes::<T>` checks the alignment of the slice pointer.
  We assume the allocation base of the buffer is 8-byte aligned (true of Rust's
  global allocator), so the check succeeds iff the cursor offset is a multiple
  of `align_of::<T>`.  `try_pod_read_unaligned` never fails on an exact-size
  slice.
* Fallible Rust code returns `PRes`: `ok`/`err` mirror `Result`, `crash` models
  a Rust panic (out-of-bounds indexing, `expect`), and `nofuel` is an artifact
  of the fuel parameter that bounds recursion depth through nested DMAP
  records; fuel is consumed only when entering a nested record, so parsing
  without nested records is fuel-independent.
-/

namespace Backscatter

/-! ### Little-endian byte codec for machine integers -/

/-- `w` bytes of `n`, little-endian (`n` taken mod `2^(8*w)`). -/
def leBytes : Nat → Nat → List Nat
  | 0, _ => []
  | w + 1, n => n % 256 :: leBytes w (n / 256)

/-- Value of a little-endian byte list. -/
def leVal : List Nat → Nat
  | [] => 0
  | b :: bs => b + 256 * leVal bs

/-- Two's-complement unsigned view of an integer in `w` bits (Rust `as uN`). -/
def toUnsigned (w : Nat) (x : Int) : Nat := (x % ((2 ^ w : Nat) : Int)).toNat

/-- Two's-complement signed view of `n % 2^w` (Rust `as iN`). -/
def toSigned (w : Nat) (n : Nat) : Int :=
  if n % 2 ^ w < 2 ^ (w - 1) then ((n % 2 ^ w : Nat) : Int)
  else ((n % 2 ^ w : Nat) : Int) - ((2 ^ w : Nat) : Int)

/-- Wrapping `i32` arithmetic (release-mode Rust overflow semantics). -/
def wrap32 (x : Int) : Int := toSigned 32 (toUnsigned 32 x)

/-- Little-endian encoding of an `i32` value. -/
def i32le (x : Int) : List Nat := leBytes 4 (toUnsigned 32 x)

/-! ### UTF-8 validity (the check performed by `String::from_utf8`) -/

/-- A UTF-8 continuation byte. -/
def utf8Cont (b : Nat) : Bool := 128 ≤ b && b ≤ 191

/-- Standard UTF-8 validity (RFC 3629 / Unicode Table 3-7), as enforced by
`String::from_utf8`. -/
def utf8Valid : List Nat → Bool
  | [] => true
  | b :: rest =>
    if b ≤ 127 then utf8Valid rest
    else if 194 ≤ b && b ≤ 223 then
      match rest with
      | c :: r => utf8Cont c && utf8Valid r
      | [] => false
    else if b == 224 then
      match rest with
      | c1 :: c2 :: r => (160 ≤ c1 && c1 ≤ 191) && utf8Cont c2 && utf8Valid r
      | _ => false
    else if 225 ≤ b && b ≤ 236 then
      match rest with
      | c1 :: c2 :: r => utf8Cont c1 && utf8Cont c2 && utf8Valid r
      | _ => false
    else if b == 237 then
      match rest with
      | c1 :: c2 :: r => (128 ≤ c1 && c1 ≤ 159) && utf8Cont c2 && utf8Valid r
      | _ => false
    else if 238 ≤ b && b ≤ 239 then
      match rest with
      | c1 :: c2 :: r => utf8Cont c1 && utf8Cont c2 && utf8Valid r
      | _ => false
    else if b == 240 then
      match rest with
      | c1 :: c2 :: c3 :: r => (144 ≤ c1 && c1 ≤ 191) && utf8Cont c2 && utf8Cont c3 && utf8Valid r
      | _ => false
    else if 241 ≤ b && b ≤ 243 then
      match rest with
      | c1 :: c2 :: c3 :: r => utf8Cont c1 && utf8Cont c2 && utf8Cont c3 && utf8Valid r
      | _ => false
    else if b == 244 then
      match rest with
      | c1 :: c2 :: c3 :: r => (128 ≤ c1 && c1 ≤ 143) && utf8Cont c2 && utf8Cont c3 && utf8Valid r
      | _ => false
    else false

/-! ### The typed-value model (`DmapType` in `src/dmap.rs`) -/

/-- The closed tagged union of wire value types.  Payloads follow the modelling
conventions in the file header (ints as `Int`/`Nat`, floats as bit patterns,
strings as UTF-8 byte lists). -/
inductive DmapType where
  | DMAP
  | CHAR (x : Int)
  | SHORT (x : Int)
  | INT (x : Int)
  | FLOAT (bits : Nat)
  | DOUBLE (bits : Nat)
  | STRING (s : List Nat)
  | LONG (x : Int)
  | UCHAR (x : Nat)
  | USHORT (x : Nat)
  | UINT (x : Nat)
  | ULONG (x : Nat)
deriving DecidableEq

namespace DmapType

/-- `DmapType::all_keys`: the closed set of wire tags. -/
def all_keys : List Int := [0, 1, 2, 3, 4, 8, 9, 10, 16, 17, 18, 19]

/-- `DmapType::get_num_bytes`: declared byte width of a value's type
(0 for `DMAP` and `STRING`). -/
def get_num_bytes : DmapType → Nat
  | CHAR _ => 1
  | SHORT _ => 2
  | INT _ => 4
  | FLOAT _ => 4
  | DOUBLE _ => 8
  | LONG _ => 8
  | UCHAR _ => 1
  | USHORT _ => 2
  | UINT _ => 4
  | ULONG _ => 8
  | _ => 0

/-- `DmapType::get_key`: the wire tag of a value. -/
def get_key : DmapType → Int
  | DMAP => 0
  | CHAR _ => 1
  | SHORT _ => 2
  | INT _ => 3
  | FLOAT _ => 4
  | DOUBLE _ => 8
  | STRING _ => 9
  | LONG _ => 10
  | UCHAR _ => 16
  | USHORT _ => 17
  | UINT _ => 18
  | ULONG _ => 19

/-- `DmapType::to_bytes`: the little-endian byte encoding of a value.
`DMAP` emits nothing; `STRING` emits its UTF-8 bytes plus a NUL terminator. -/
def to_bytes : DmapType → List Nat
  | DMAP => []
  | CHAR x => leBytes 1 (toUnsigned 8 x)
  | UCHAR x => leBytes 1 (toUnsigned 8 (x : Int))
  | SHORT x => leBytes 2 (toUnsigned 16 x)
  | USHORT x => leBytes 2 (toUnsigned 16 (x : Int))
  | INT x => leBytes 4 (toUnsigned 32 x)
  | UINT x => leBytes 4 (toUnsigned 32 (x : Int))
  | LONG x => leBytes 8 (toUnsigned 64 x)
  | ULONG x => leBytes 8 (toUnsigned 64 (x : Int))
  | FLOAT bits => leBytes 4 bits
  | DOUBLE bits => leBytes 8 bits
  | STRING s => s ++ [0]

end DmapType

/-! ### Errors, panics and results -/

/-- The distinct diagnostic messages produced in `src/dmap.rs` (abstracting the
rendered strings; arguments that are interpolated into a message are carried as
constructor arguments). -/
inductive Msg where
  | invalidKey (key : Int)
  | parseRecordInvalidCode
  | parseRecordInvalidSize
  | parseRecordSizeExceedsBuffer
  | parseRecordSizeNonPositive
  | parseRecordInvalidNumScalars
  | parseRecordInvalidNumArrays
  | parseRecordNumScalarsNonPositive
  | parseRecordNumArraysNonPositive
  | parseRecordTooManyElements
  | parseRecordSizeMismatch (bytesRead : Nat) (size : Int)
  | parseScalarInvalidName
  | parseScalarInvalidType
  | parseScalarCorruptType
  | parseArrayInvalidName
  | parseArrayInvalidType
  | parseArrayCorruptType
  | parseArrayInvalidDimension
  | parseArrayDimsExceedRecordSize
  | parseArrayDimsNonPositive
  | parseArrayDimParse
  | parseArrayDimNonPositive
  | parseArrayDimExceedsRecordSize
  | parseArrayTooManyElements
  | parseArraySizeExceedsRecordSize
  | readDataCursorOOB
  | readDataNotAligned
  | readDataBadUshort
  | readDataBadUint
  | readDataBadLong
  | readDataBadUlong
  | readDataUntermStr
  | readDataBadUtf8
deriving DecidableEq

/-- `DmapError` from `src/dmap.rs` (the unused `Parse` variant is omitted;
message strings are abstracted by `Msg`). -/
inductive DmapError where
  | Message (m : Msg)
  | BadVal (m : Msg) (v : DmapType)
  | CastError (m : Msg)
deriving DecidableEq

/-- A Rust panic: out-of-bounds slice indexing, or `expect` on a missing map
entry (the name carried is the missing key). -/
inductive Crash where
  | indexOOB
  | missingEntry (name : List Nat)
deriving DecidableEq

/-- Outcome of running a fallible piece of the Rust code: `Ok`, `Err`, panic,
or fuel exhaustion (a modelling artifact, see the file header). -/
inductive PRes (α : Type) where
  | ok (val : α)
  | err (e : DmapError)
  | crash (c : Crash)
  | nofuel
deriving DecidableEq

/-- `DmapType::get_type_from_key`. -/
def DmapType.get_type_from_key (key : Int) : PRes DmapType :=
  if key = 0 then .ok .DMAP
  else if key = 1 then .ok (.CHAR 0)
  else if key = 2 then .ok (.SHORT 0)
  else if key = 3 then .ok (.INT 0)
  else if key = 4 then .ok (.FLOAT 0)
  else if key = 8 then .ok (.DOUBLE 0)
  else if key = 9 then .ok (.STRING [])
  else if key = 10 then .ok (.LONG 0)
  else if key = 16 then .ok (.UCHAR 0)
  else if key = 17 then .ok (.USHORT 0)
  else if key = 18 then .ok (.UINT 0)
  else if key = 19 then .ok (.ULONG 0)
  else .err (.Message (.invalidKey key))

/-! ### Scalars, arrays, records and their equalities -/

/-- `RawDmapScalar`. -/
structure RawDmapScalar where
  data : DmapType
  mode : Int
deriving DecidableEq

/-- `RawDmapArray`. -/
structure RawDmapArray where
  mode : Int
  dimensions : List Int
  data : List DmapType
deriving DecidableEq

/-- Model of `HashMap<String, α>`: an association list whose keys are kept
distinct by `insert`; only `lookup` (`HashMap::get`) and `length`
(`HashMap::len`) are observed by the code. -/
def Smap (α : Type) : Type := List (List Nat × α)

instance (α : Type) [DecidableEq α] : DecidableEq (Smap α) :=
  inferInstanceAs (DecidableEq (List (List Nat × α)))

namespace Smap

/-- `HashMap::get`. -/
def lookup {α : Type} (m : Smap α) (k : List Nat) : Option α :=
  match List.find? (fun p => p.1 == k) m with
  | some p => some p.2
  | none => none

/-- `HashMap::insert` (overwrites an existing binding for the key). -/
def insert {α : Type} (m : Smap α) (k : List Nat) (v : α) : Smap α :=
  (k, v) :: List.filter (fun p => !(p.1 == k)) m

/-- `HashMap::len`. -/
def size {α : Type} (m : Smap α) : Nat := List.length m

/-- The empty map. -/
def empty {α : Type} : Smap α := []

end Smap

/-- `RawDmapRecord`. -/
structure RawDmapRecord where
  num_scalars : Int
  num_arrays : Int
  scalar_list : List (List Nat)
  array_list : List (List Nat)
  scalars : Smap RawDmapScalar
  arrays : Smap RawDmapArray
deriving DecidableEq

/-! IEEE-754 equality on bit patterns, used by Rust's derived `PartialEq`
for the `FLOAT`/`DOUBLE` payloads. -/

/-- The 32-bit pattern is a NaN. -/
def isNan32 (bits : Nat) : Bool :=
  (bits % 2 ^ 32) / 2 ^ 23 % 2 ^ 9 % 256 == 255 && (bits % 2 ^ 23) ≠ 0

/-- The 32-bit pattern is a (positive or negative) zero. -/
def isZero32 (bits : Nat) : Bool := bits % 2 ^ 32 % 2 ^ 31 == 0

/-- The 64-bit pattern is a NaN. -/
def isNan64 (bits : Nat) : Bool :=
  (bits % 2 ^ 64) / 2 ^ 52 % 2 ^ 11 == 2047 && (bits % 2 ^ 52) ≠ 0

/-- The 64-bit pattern is a (positive or negative) zero. -/
def isZero64 (bits : Nat) : Bool := bits % 2 ^ 64 % 2 ^ 63 == 0

/-- `f32` equality (`==` on Rust floats) on bit patterns. -/
def floatEq32 (a b : Nat) : Bool :=
  !isNan32 a && !isNan32 b && (a % 2 ^ 32 == b % 2 ^ 32 || (isZero32 a && isZero32 b))

/-- `f64` equality on bit patterns. -/
def floatEq64 (a b : Nat) : Bool :=
  !isNan64 a && !isNan64 b && (a % 2 ^ 64 == b % 2 ^ 64 || (isZero64 a && isZero64 b))

/-- Rust's derived `PartialEq` on `DmapType`. -/
def dmapTypeEq : DmapType → DmapType → Bool
  | .DMAP, .DMAP => true
  | .CHAR a, .CHAR b => a == b
  | .SHORT a, .SHORT b => a == b
  | .INT a, .INT b => a == b
  | .FLOAT a, .FLOAT b => floatEq32 a b
  | .DOUBLE a, .DOUBLE b => floatEq64 a b
  | .STRING a, .STRING b => a == b
  | .LONG a, .LONG b => a == b
  | .UCHAR a, .UCHAR b => a == b
  | .USHORT a, .USHORT b => a == b
  | .UINT a, .UINT b => a == b
  | .ULONG a, .ULONG b => a == b
  | _, _ => false

/-- Rust's derived `PartialEq` on `RawDmapScalar`. -/
def scalarEq (s1 s2 : RawDmapScalar) : Bool :=
  dmapTypeEq s1.data s2.data && s1.mode == s2.mode

/-- `PartialEq` on `Option<&T>` values as used in record equality. -/
def optEq {α : Type} (f : α → α → Bool) : Option α → Option α → Bool
  | none, none => true
  | some a, some b => f a b
  | _, _ => false

/-- The hand-written `PartialEq for RawDmapArray`: mode, then element-wise
comparison of the zipped (common-prefix) dimension and data sequences. -/
def arrayEq (a1 a2 : RawDmapArray) : Bool :=
  (a1.mode == a2.mode)
    && (List.zip a1.dimensions a2.dimensions).all (fun p => p.1 == p.2)
    && (List.zip a1.data a2.data).all (fun p => dmapTypeEq p.1 p.2)

/-- The hand-written `PartialEq for RawDmapRecord`: exact equality of the two
count fields, then element-wise comparison over the zipped (common-prefix)
name lists, comparing names and looked-up entries. -/
def recordEq (r1 r2 : RawDmapRecord) : Bool :=
  if !(r1.num_scalars == r2.num_scalars && r1.num_arrays == r2.num_arrays) then false
  else
    (List.zip r1.scalar_list r2.scalar_list).all
      (fun p => p.1 == p.2 && optEq scalarEq (r1.scalars.lookup p.1) (r2.scalars.lookup p.2))
    && (List.zip r1.array_list r2.array_list).all
      (fun p => p.1 == p.2 && optEq arrayEq (r1.arrays.lookup p.1) (r2.arrays.lookup p.2))

/-! ### Encoders -/

/-- `RawDmapScalar::to_bytes`: tag byte then value bytes. -/
def RawDmapScalar.to_bytes (s : RawDmapScalar) : List Nat :=
  (DmapType.CHAR s.data.get_key).to_bytes ++ s.data.to_bytes

/-- `RawDmapArray::to_bytes`: tag byte of `data[0]` (panics when the element
vector is empty), dimension count, dimensions, then elements.  The dimension
count is `dimensions.len() as i32`. -/
def RawDmapArray.to_bytes (a : RawDmapArray) : PRes (List Nat) :=
  match a.data with
  | [] => .crash .indexOOB
  | d0 :: _ =>
    .ok ((DmapType.CHAR d0.get_key).to_bytes
      ++ (DmapType.INT (wrap32 ((a.dimensions.length : Nat) : Int))).to_bytes
      ++ (a.dimensions.map (fun dim => (DmapType.INT dim).to_bytes)).flatten
      ++ (a.data.map DmapType.to_bytes).flatten)

/-- The scalar portion of `RawDmapRecord::to_bytes`: for each listed name,
the NUL-terminated name then the scalar's bytes; a name missing from the map
panics (`expect`). -/
def encScalarEntries (scalars : Smap RawDmapScalar) : List (List Nat) → PRes (List Nat)
  | [] => .ok []
  | name :: rest =>
    match scalars.lookup name with
    | none => .crash (.missingEntry name)
    | some s =>
      match encScalarEntries scalars rest with
      | .ok bs => .ok (name ++ [0] ++ s.to_bytes ++ bs)
      | .err e => .err e
      | .crash c => .crash c
      | .nofuel => .nofuel

/-- The array portion of `RawDmapRecord::to_bytes`. -/
def encArrayEntries (arrays : Smap RawDmapArray) : List (List Nat) → PRes (List Nat)
  | [] => .ok []
  | name :: rest =>
    match arrays.lookup name with
    | none => .crash (.missingEntry name)
    | some a =>
      match a.to_bytes with
      | .ok ab =>
        match encArrayEntries arrays rest with
        | .ok bs => .ok (name ++ [0] ++ ab ++ bs)
        | .err e => .err e
        | .crash c => .crash c
        | .nofuel => .nofuel
      | .err e => .err e
      | .crash c => .crash c
      | .nofuel => .nofuel

/-- `RawDmapRecord::to_bytes`: header `[code=65537][size][num_scalars]
[num_arrays]` followed by the scalar then array entries, where `size` is
`data_bytes.len() as i32 + 16` in wrapping `i32` arithmetic. -/
def RawDmapRecord.to_bytes (r : RawDmapRecord) : PRes (List Nat) :=
  match encScalarEntries r.scalars r.scalar_list with
  | .ok sb =>
    match encArrayEntries r.arrays r.array_list with
    | .ok ab =>
      let data_bytes := sb ++ ab
      .ok ((DmapType.INT 65537).to_bytes
        ++ (DmapType.INT (wrap32 (wrap32 ((data_bytes.length : Nat) : Int) + 16))).to_bytes
        ++ (DmapType.INT r.num_scalars).to_bytes
        ++ (DmapType.INT r.num_arrays).to_bytes
        ++ data_bytes)
    | .err e => .err e
    | .crash c => .crash c
    | .nofuel => .nofuel
  | .err e => .err e
  | .crash c => .crash c
  | .nofuel => .nofuel

/-! ### Decoder -/

/-- The slice `stream[position .. position + n]`. -/
def sliceN (stream : List Nat) (position n : Nat) : List Nat :=
  (stream.drop position).take n

/-- The body of the NUL-scanning loop of `read_data`'s `STRING` branch.
`rem` is the structural-recursion argument; `scanTerm` initializes it to
`stream.length - (position + byte_counter)`, so `rem = 0` exactly when the
access `stream[position + byte_counter]` is out of bounds. -/
def scanGo (stream : List Nat) (position : Nat) : Nat → Nat → PRes Nat
  | _, 0 => .crash .indexOOB
  | byte_counter, rem + 1 =>
    if stream.getD (position + byte_counter) 0 != 0 then
      if stream.length ≤ position + (byte_counter + 1) then
        .err (.Message .readDataUntermStr)
      else scanGo stream position (byte_counter + 1) rem
    else .ok byte_counter

/-- The NUL-scanning loop of `read_data`'s `STRING` branch.  Returns the
number of bytes before the terminator.  Faithful to the source: the byte at
`position + byte_counter` is accessed *before* any bounds check (so the very
first access panics when the cursor sits exactly at the end of the buffer);
after incrementing, the counter is bounds-checked before the next access. -/
def scanTerm (stream : List Nat) (position : Nat) (byte_counter : Nat) : PRes Nat :=
  scanGo stream position byte_counter (stream.length - (position + byte_counter))

/-- The parser for a nested record, abstracted so that the family below is
structurally recursive; it is instantiated with `parse_record` at one less
fuel (or the out-of-fuel function) by `nestedAt`. -/
abbrev NestedFn : Type := List Nat → Nat → PRes (RawDmapRecord × Nat)

/-- `read_data`: bounds checks, then reads one value of the given shape at the
cursor, returning the value and the new cursor position.  For the `DMAP`
shape a whole record is parsed recursively (via `nested`) and then the cursor
is *reset* (`set_position(position + data_size)` with `data_size = 0`). -/
def read_dataN (nested : NestedFn) (stream : List Nat) (position : Nat) (data_type : DmapType) :
    PRes (DmapType × Nat) :=
  if position > stream.length then .err (.Message .readDataCursorOOB)
  else if stream.length - position < data_type.get_num_bytes then
    .err (.Message .readDataNotAligned)
  else
    let data_size := data_type.get_num_bytes
    let data := sliceN stream position data_size
    match data_type with
    | .DMAP =>
      match nested stream position with
      | .ok _ => .ok (.DMAP, position + data_size)
      | .err e => .err e
      | .crash c => .crash c
      | .nofuel => .nofuel
    | .UCHAR _ => .ok (.UCHAR (leVal data), position + data_size)
    | .CHAR _ => .ok (.CHAR (toSigned 8 (leVal data)), position + data_size)
    | .SHORT _ => .ok (.SHORT (toSigned 16 (leVal data)), position + data_size)
    | .USHORT _ =>
      if position % 2 == 0 then .ok (.USHORT (leVal data), position + data_size)
      else .err (.CastError .readDataBadUshort)
    | .INT _ => .ok (.INT (toSigned 32 (leVal data)), position + data_size)
    | .UINT _ =>
      if position % 4 == 0 then .ok (.UINT (leVal data), position + data_size)
      else .err (.Message .readDataBadUint)
    | .LONG _ =>
      if position % 8 == 0 then .ok (.LONG (toSigned 64 (leVal data)), position + data_size)
      else .err (.Message .readDataBadLong)
    | .ULONG _ =>
      if position % 8 == 0 then .ok (.ULONG (leVal data), position + data_size)
      else .err (.Message .readDataBadUlong)
    | .FLOAT _ => .ok (.FLOAT (leVal data), position + data_size)
    | .DOUBLE _ => .ok (.DOUBLE (leVal data), position + data_size)
    | .STRING _ =>
      match scanTerm stream position 0 with
      | .ok byte_counter =>
        let s := sliceN stream position byte_counter
        if utf8Valid s then .ok (.STRING s, position + (byte_counter + 1))
        else .err (.Message .readDataBadUtf8)
      | .err e => .err e
      | .crash c => .crash c
      | .nofuel => .nofuel

/-- The element-reading loop of `parse_array`
(`for _ in 0..total_elements { data.push(read_data(...)?) }`). -/
def read_elems_loopN (nested : NestedFn) (stream : List Nat) (data_type : DmapType) :
    Nat → Nat → List DmapType → PRes (List DmapType × Nat)
  | 0, pos, acc => .ok (acc, pos)
  | n + 1, pos, acc =>
    match read_dataN nested stream pos data_type with
    | .ok (d, p) => read_elems_loopN nested stream data_type n p (acc ++ [d])
    | .err e => .err e
    | .crash c => .crash c
    | .nofuel => .nofuel

/-- The dimension-reading loop of `parse_array`: reads `n` dimensions,
validating each (`> 0` and `≤ record_size`) and accumulating the running
product in wrapping `i32` arithmetic. -/
def read_dims_loopN (nested : NestedFn) (stream : List Nat) (record_size : Int) :
    Nat → Nat → List Int → Int → PRes ((List Int × Int) × Nat)
  | 0, pos, dims, total => .ok ((dims, total), pos)
  | n + 1, pos, dims, total =>
    match read_dataN nested stream pos (.INT 0) with
    | .ok (.INT dim, p) =>
      if dim ≤ 0 then .err (.Message .parseArrayDimNonPositive)
      else if dim > record_size then .err (.Message .parseArrayDimExceedsRecordSize)
      else read_dims_loopN nested stream record_size n p (dims ++ [dim]) (wrap32 (total * dim))
    | .ok _ => .err (.Message .parseArrayDimParse)
    | .err e => .err e
    | .crash c => .crash c
    | .nofuel => .nofuel

/-- `parse_scalar`: NUL-terminated name, tag byte (validated against
`all_keys`), then either a recursively parsed record (`DMAP` tag; the parsed
contents are discarded, only the marker is kept) or one primitive value. -/
def parse_scalarN (nested : NestedFn) (stream : List Nat) (pos : Nat) :
    PRes ((List Nat × RawDmapScalar) × Nat) :=
  let mode : Int := 6
  match read_dataN nested stream pos (.STRING []) with
  | .ok (.STRING name, p1) =>
    match read_dataN nested stream p1 (.CHAR 0) with
    | .ok (.CHAR data_type_key, p2) =>
      if !(DmapType.all_keys.contains data_type_key) then
        .err (.BadVal .parseScalarCorruptType (.CHAR data_type_key))
      else
        match DmapType.get_type_from_key data_type_key with
        | .ok data_type =>
          match data_type with
          | .DMAP =>
            match nested stream p2 with
            | .ok (_, p3) => .ok ((name, ⟨.DMAP, mode⟩), p3)
            | .err e => .err e
            | .crash c => .crash c
            | .nofuel => .nofuel
          | _ =>
            match read_dataN nested stream p2 data_type with
            | .ok (d, p3) => .ok ((name, ⟨d, mode⟩), p3)
            | .err e => .err e
            | .crash c => .crash c
            | .nofuel => .nofuel
        | .err e => .err e
        | .crash c => .crash c
        | .nofuel => .nofuel
    | .ok _ => .err (.Message .parseScalarInvalidType)
    | .err e => .err e
    | .crash c => .crash c
    | .nofuel => .nofuel
  | .ok _ => .err (.Message .parseScalarInvalidName)
  | .err e => .err e
  | .crash c => .crash c
  | .nofuel => .nofuel

/-- `parse_array`: name, tag (validated; failure message differs from the
scalar case), dimension count (validated against the record size), the
dimensions, the product guards, then `total_elements` primitive values. -/
def parse_arrayN (nested : NestedFn) (stream : List Nat) (pos : Nat) (record_size : Int) :
    PRes ((List Nat × RawDmapArray) × Nat) :=
  let mode : Int := 7
  match read_dataN nested stream pos (.STRING []) with
  | .ok (.STRING name, p1) =>
    match read_dataN nested stream p1 (.CHAR 0) with
    | .ok (.CHAR data_type_key, p2) =>
      if !(DmapType.all_keys.contains data_type_key) then
        .err (.Message .parseArrayCorruptType)
      else
        match DmapType.get_type_from_key data_type_key with
        | .ok data_type =>
          match read_dataN nested stream p2 (.INT 0) with
          | .ok (.INT array_dimension, p3) =>
            if array_dimension > record_size then
              .err (.Message .parseArrayDimsExceedRecordSize)
            else if array_dimension ≤ 0 then
              .err (.Message .parseArrayDimsNonPositive)
            else
              match read_dims_loopN nested stream record_size array_dimension.toNat p3 [] 1 with
              | .ok ((dimensions, total_elements), p4) =>
                if total_elements > record_size then
                  .err (.Message .parseArrayTooManyElements)
                else if wrap32 (total_elements * (data_type.get_num_bytes : Int)) > record_size then
                  .err (.Message .parseArraySizeExceedsRecordSize)
                else
                  match read_elems_loopN nested stream data_type total_elements.toNat p4 [] with
                  | .ok (data, p5) => .ok ((name, ⟨mode, dimensions, data⟩), p5)
                  | .err e => .err e
                  | .crash c => .crash c
                  | .nofuel => .nofuel
              | .err e => .err e
              | .crash c => .crash c
              | .nofuel => .nofuel
          | .ok _ => .err (.Message .parseArrayInvalidDimension)
          | .err e => .err e
          | .crash c => .crash c
          | .nofuel => .nofuel
        | .err e => .err e
        | .crash c => .crash c
        | .nofuel => .nofuel
    | .ok _ => .err (.Message .parseArrayInvalidType)
    | .err e => .err e
    | .crash c => .crash c
    | .nofuel => .nofuel
  | .ok _ => .err (.Message .parseArrayInvalidName)
  | .err e => .err e
  | .crash c => .crash c
  | .nofuel => .nofuel

/-- The scalar-collecting loop of `parse_record`: pushes each parsed name onto
the ordered list and inserts the scalar into the map. -/
def parse_scalars_loopN (nested : NestedFn) (stream : List Nat) :
    Nat → Nat → List (List Nat) → Smap RawDmapScalar →
      PRes ((List (List Nat) × Smap RawDmapScalar) × Nat)
  | 0, pos, lst, mp => .ok ((lst, mp), pos)
  | n + 1, pos, lst, mp =>
    match parse_scalarN nested stream pos with
    | .ok ((name, val), p) =>
      parse_scalars_loopN nested stream n p (lst ++ [name]) (mp.insert name val)
    | .err e => .err e
    | .crash c => .crash c
    | .nofuel => .nofuel

/-- The array-collecting loop of `parse_record`. -/
def parse_arrays_loopN (nested : NestedFn) (stream : List Nat) (record_size : Int) :
    Nat → Nat → List (List Nat) → Smap RawDmapArray →
      PRes ((List (List Nat) × Smap RawDmapArray) × Nat)
  | 0, pos, lst, mp => .ok ((lst, mp), pos)
  | n + 1, pos, lst, mp =>
    match parse_arrayN nested stream pos record_size with
    | .ok ((name, val), p) =>
      parse_arrays_loopN nested stream record_size n p (lst ++ [name]) (mp.insert name val)
    | .err e => .err e
    | .crash c => .crash c
    | .nofuel => .nofuel

/-- `parse_record`: header (`code` read but discarded, `size`,
`num_scalars`, `num_arrays`) with the integrity checks of the source in their
original order, the two entry loops, then the final consumed-bytes check.
`size as u64` sign-extends, so a negative size trips the
exceeds-remaining-buffer check. -/
def parse_recordN (nested : NestedFn) (stream : List Nat) (pos : Nat) :
    PRes (RawDmapRecord × Nat) :=
  let bytes_already_read := pos
  match read_dataN nested stream pos (.INT 0) with
  | .ok (.INT _code, p1) =>
    match read_dataN nested stream p1 (.INT 0) with
    | .ok (.INT size, p2) =>
      if toUnsigned 64 size > stream.length - p2 + 2 * (DmapType.INT 0).get_num_bytes then
        .err (.Message .parseRecordSizeExceedsBuffer)
      else if size ≤ 0 then .err (.Message .parseRecordSizeNonPositive)
      else
        match read_dataN nested stream p2 (.INT 0) with
        | .ok (.INT num_scalars, p3) =>
          match read_dataN nested stream p3 (.INT 0) with
          | .ok (.INT num_arrays, p4) =>
            if num_scalars ≤ 0 then .err (.Message .parseRecordNumScalarsNonPositive)
            else if num_arrays ≤ 0 then .err (.Message .parseRecordNumArraysNonPositive)
            else if wrap32 (num_scalars + num_arrays) > size then
              .err (.Message .parseRecordTooManyElements)
            else
              match parse_scalars_loopN nested stream num_scalars.toNat p4 [] Smap.empty with
              | .ok ((scalar_list, scalars), p5) =>
                match parse_arrays_loopN nested stream size num_arrays.toNat p5 [] Smap.empty with
                | .ok ((array_list, arrays), p6) =>
                  if p6 - bytes_already_read ≠ toUnsigned 64 size then
                    .err (.Message (.parseRecordSizeMismatch (p6 - bytes_already_read) size))
                  else
                    .ok (⟨num_scalars, num_arrays, scalar_list, array_list, scalars, arrays⟩, p6)
                | .err e => .err e
                | .crash c => .crash c
                | .nofuel => .nofuel
              | .err e => .err e
              | .crash c => .crash c
              | .nofuel => .nofuel
          | .ok _ => .err (.Message .parseRecordInvalidNumArrays)
          | .err e => .err e
          | .crash c => .crash c
          | .nofuel => .nofuel
        | .ok _ => .err (.Message .parseRecordInvalidNumScalars)
        | .err e => .err e
        | .crash c => .crash c
        | .nofuel => .nofuel
    | .ok _ => .err (.Message .parseRecordInvalidSize)
    | .err e => .err e
    | .crash c => .crash c
    | .nofuel => .nofuel
  | .ok _ => .err (.Message .parseRecordInvalidCode)
  | .err e => .err e
  | .crash c => .crash c
  | .nofuel => .nofuel

/-- `parse_record` with a fuel bound on the nesting depth of `DMAP`-tagged
sub-records: fuel is consumed only when entering a nested record, so parsing
a record without nested sub-records is independent of the fuel. -/
def parse_record : Nat → List Nat → Nat → PRes (RawDmapRecord × Nat)
  | 0 => parse_recordN (fun _ _ => .nofuel)
  | fuel + 1 => parse_recordN (parse_record fuel)

/-- The nested-record parser available at a given fuel level. -/
def nestedAt : Nat → NestedFn
  | 0 => fun _ _ => .nofuel
  | fuel + 1 => parse_record fuel

/-- `read_data` at a given fuel level. -/
def read_data (fuel : Nat) : List Nat → Nat → DmapType → PRes (DmapType × Nat) :=
  read_dataN (nestedAt fuel)

/-- `parse_scalar` at a given fuel level. -/
def parse_scalar (fuel : Nat) : List Nat → Nat → PRes ((List Nat × RawDmapScalar) × Nat) :=
  parse_scalarN (nestedAt fuel)

/-- `parse_array` at a given fuel level. -/
def parse_array (fuel : Nat) : List Nat → Nat → Int → PRes ((List Nat × RawDmapArray) × Nat) :=
  parse_arrayN (nestedAt fuel)

/-- The top-level loop of `read_records`: parse records until the cursor
reaches the end of the buffer. -/
def read_records_loop (stream : List Nat) : Nat → Nat → PRes (List RawDmapRecord)
  | fuel, pos =>
    if pos < stream.length then
      match fuel with
      | 0 => .nofuel
      | f + 1 =>
        match parse_record f stream pos with
        | .ok (r, p) =>
          match read_records_loop stream f p with
          | .ok rs => .ok (r :: rs)
          | .err e => .err e
          | .crash c => .crash c
          | .nofuel => .nofuel
        | .err e => .err e
        | .crash c => .crash c
        | .nofuel => .nofuel
    else .ok []

/-- `read_records`: reads the whole buffer into a sequence of records. -/
def read_records (fuel : Nat) (stream : List Nat) : PRes (List RawDmapRecord) :=
  read_records_loop stream fuel 0

/-! ### Well-formedness predicates used by the round-trip theorem -/

/-- The shape (default-payload representative) of a value's variant; this is
what `get_type_from_key (get_key v)` yields. -/
def shapeOf : DmapType → DmapType
  | .DMAP => .DMAP
  | .CHAR _ => .CHAR 0
  | .SHORT _ => .SHORT 0
  | .INT _ => .INT 0
  | .FLOAT _ => .FLOAT 0
  | .DOUBLE _ => .DOUBLE 0
  | .STRING _ => .STRING []
  | .LONG _ => .LONG 0
  | .UCHAR _ => .UCHAR 0
  | .USHORT _ => .USHORT 0
  | .UINT _ => .UINT 0
  | .ULONG _ => .ULONG 0

/-- Product of a dimension vector, in unbounded integer arithmetic. -/
def prodInt (dims : List Int) : Int := dims.foldl (· * ·) 1

/-- Values whose decode is modelled exactly and round-trips: payload within
the Rust machine-type range, floats not NaN, strings valid NUL-free UTF-8.
`DMAP` is excluded (its encoder emits nothing), as are the four variants that
`read_data` decodes with alignment-sensitive `bytemuck::try_from_bytes`
(`USHORT`, `UINT`, `LONG`, `ULONG`). -/
def goodVal : DmapType → Bool
  | .CHAR x => decide (-128 ≤ x) && decide (x < 128)
  | .SHORT x => decide (-32768 ≤ x) && decide (x < 32768)
  | .INT x => decide (-2147483648 ≤ x) && decide (x < 2147483648)
  | .FLOAT b => decide (b < 2 ^ 32) && !isNan32 b
  | .DOUBLE b => decide (b < 2 ^ 64) && !isNan64 b
  | .STRING s => utf8Valid s && !s.contains 0
  | .UCHAR x => decide (x < 256)
  | _ => false

/-- A usable entry name: valid UTF-8 with no interior NUL byte. -/
def goodName (n : List Nat) : Bool := utf8Valid n && !n.contains 0

/-- A scalar as produced outside the module (mode 6) with a round-trippable
value. -/
def goodScalar (s : RawDmapScalar) : Bool := s.mode == 6 && goodVal s.data

/-- An array as produced outside the module (mode 7) satisfying the §3
invariants (positive dimensions, homogeneous elements, element count equal to
the dimension product) with round-trippable elements. -/
def goodArray (a : RawDmapArray) : Bool :=
  a.mode == 7
    && !a.dimensions.isEmpty
    && a.dimensions.all (fun d => decide (0 < d) && decide (d < 2147483648))
    && (match a.data with
        | [] => false
        | d0 :: _ => a.data.all (fun x => goodVal x && (shapeOf x == shapeOf d0)))
    && (((a.data.length : Nat) : Int) == prodInt a.dimensions)

/-- The §3 record invariants together with the restrictions that the amended
round-trip claim needs: counts match the ordered lists and the map sizes, at
least one scalar and one array, and every listed entry is present and
`good` in the sense above. -/
def encodable (r : RawDmapRecord) : Bool :=
  (r.num_scalars == ((r.scalar_list.length : Nat) : Int))
    && (r.num_arrays == ((r.array_list.length : Nat) : Int))
    && (((r.scalars.size : Nat) : Int) == r.num_scalars)
    && (((r.arrays.size : Nat) : Int) == r.num_arrays)
    && decide (1 ≤ r.num_scalars) && decide (1 ≤ r.num_arrays)
    && r.scalar_list.all (fun n =>
        goodName n
          && (match r.scalars.lookup n with
              | some s => goodScalar s
              | none => false))
    && r.array_list.all (fun n =>
        goodName n
          && (match r.arrays.lookup n with
              | some a => goodArray a
              | none => false))

/-! ### Concrete data used by specific claims -/

/-- The 39-byte wire image of spec scenario 5. -/
def bytes39 : List Nat :=
  [1, 0, 1, 0, 39, 0, 0, 0, 1, 0, 0, 0, 1, 0, 0, 0,
   115, 99, 97, 108, 0, 1, 10, 97, 114, 114, 0, 1, 1, 0, 0, 0, 3, 0, 0, 0, 0, 1, 2]

/-- The scenario-5 record: scalar `"scal"` → `CHAR 10` and array `"arr"` →
dimensions `[3]`, elements `CHAR 0, CHAR 1, CHAR 2`. -/
def rec5 : RawDmapRecord :=
  { num_scalars := 1, num_arrays := 1
    scalar_list := [[115, 99, 97, 108]], array_list := [[97, 114, 114]]
    scalars := [([115, 99, 97, 108], ⟨.CHAR 10, 6⟩)]
    arrays := [([97, 114, 114], ⟨7, [3], [.CHAR 0, .CHAR 1, .CHAR 2]⟩)] }

/-- A 16-byte buffer whose header passes every integrity check
(`size = 8 ≤ remaining + 8`, one scalar, one array) but ends exactly where the
first scalar name should start, reaching the unguarded `stream[position]`
access in `read_data`'s string scanner. -/
def c2buf : List Nat := [1, 0, 1, 0, 8, 0, 0, 0, 1, 0, 0, 0, 1, 0, 0, 0]

/-- A record that is well-formed per the §3 invariants but has no arrays, so
its decode fails the positivity check on `num_arrays`. -/
def c1rec : RawDmapRecord :=
  { num_scalars := 1, num_arrays := 0
    scalar_list := [[115]], array_list := []
    scalars := [([115], ⟨.CHAR 0, 6⟩)], arrays := [] }

/-- The wire image of `c1rec`. -/
def c1bytes : List Nat :=
  [1, 0, 1, 0, 20, 0, 0, 0, 1, 0, 0, 0, 0, 0, 0, 0, 115, 0, 1, 0]

/-- A 36-byte buffer containing one record with two scalars that share the
name `"a"` (and one array `"b"`), which decodes successfully. -/
def c4buf : List Nat :=
  [1, 0, 1, 0, 36, 0, 0, 0, 2, 0, 0, 0, 1, 0, 0, 0,
   97, 0, 1, 0, 97, 0, 1, 0, 98, 0, 1, 1, 0, 0, 0, 1, 0, 0, 0, 5]

/-- The record decoded from `c4buf`: the scalar list has length 2 but the
scalar map has a single entry. -/
def c4rec : RawDmapRecord :=
  { num_scalars := 2, num_arrays := 1
    scalar_list := [[97], [97]], array_list := [[98]]
    scalars := [([97], ⟨.CHAR 0, 6⟩)]
    arrays := [([98], ⟨7, [1], [.CHAR 5]⟩)] }

/-- A 151-byte buffer whose single array declares 31 dimensions of 2: the
dimension product `2^31` wraps to `-2^31` in `i32` arithmetic, slips past
both product guards, and reads zero elements; decode then succeeds. -/
def c6buf : List Nat :=
  [1, 0, 1, 0, 151, 0, 0, 0, 1, 0, 0, 0, 1, 0, 0, 0,
   97, 0, 1, 0, 98, 0, 1, 31, 0, 0, 0]
    ++ (List.replicate 31 [2, 0, 0, 0]).flatten

/-- The record decoded from `c6buf`: 31 dimensions of 2 yet zero elements. -/
def c6rec : RawDmapRecord :=
  { num_scalars := 1, num_arrays := 1
    scalar_list := [[97]], array_list := [[98]]
    scalars := [([97], ⟨.CHAR 0, 6⟩)]
    arrays := [([98], ⟨7, List.replicate 31 2, []⟩)] }

/-- `bytes39` with its size field raised to 100 (beyond the remaining
buffer). -/
def c5bufBig : List Nat :=
  [1, 0, 1, 0, 100, 0, 0, 0, 1, 0, 0, 0, 1, 0, 0, 0,
   115, 99, 97, 108, 0, 1, 10, 97, 114, 114, 0, 1, 1, 0, 0, 0, 3, 0, 0, 0, 0, 1, 2]

/-- `bytes39` with its size field raised to 40 and one trailing padding byte,
so the entries consume 39 bytes but the declared size is 40. -/
def c5bufOff : List Nat :=
  [1, 0, 1, 0, 40, 0, 0, 0, 1, 0, 0, 0, 1, 0, 0, 0,
   115, 99, 97, 108, 0, 1, 10, 97, 114, 114, 0, 1, 1, 0, 0, 0, 3, 0, 0, 0, 0, 1, 2, 0]

/-- A scalar entry named `"n"` with the `DMAP` tag (0) followed by a complete
39-byte record: the recursive sub-parse consumes the record. -/
def c7buf : List Nat := [110, 0, 0] ++ bytes39

/-- `bytes39` with its (unvalidated) code field replaced by garbage. -/
def c9buf : List Nat :=
  [250, 107, 33, 5, 39, 0, 0, 0, 1, 0, 0, 0, 1, 0, 0, 0,
   115, 99, 97, 108, 0, 1, 10, 97, 114, 114, 0, 1, 1, 0, 0, 0, 3, 0, 0, 0, 0, 1, 2]

/-- A record like `rec5` but whose array `"arr"` has an empty element
vector, so encoding it indexes `data[0]` out of bounds. -/
def c10rec : RawDmapRecord :=
  { num_scalars := 1, num_arrays := 1
    scalar_list := [[115, 99, 97, 108]], array_list := [[97, 114, 114]]
    scalars := [([115, 99, 97, 108], ⟨.CHAR 10, 6⟩)]
    arrays := [([97, 114, 114], ⟨7, [3], []⟩)] }

/-- A base record for exercising the equality definition: one scalar
`"s"` and one array `"b"`. -/
def c3rec : RawDmapRecord :=
  { num_scalars := 1, num_arrays := 1
    scalar_list := [[115]], array_list := [[98]]
    scalars := [([115], ⟨.CHAR 1, 6⟩)]
    arrays := [([98], ⟨7, [1], [.CHAR 5]⟩)] }

/-- `c3rec` with one extra trailing scalar `"t"` and `num_scalars`
updated accordingly (still well-formed). -/
def c3recExt : RawDmapRecord :=
  { num_scalars := 2, num_arrays := 1
    scalar_list := [[115], [116]], array_list := [[98]]
    scalars := [([116], ⟨.CHAR 9, 6⟩), ([115], ⟨.CHAR 1, 6⟩)]
    arrays := [([98], ⟨7, [1], [.CHAR 5]⟩)] }

/-- Appends one scalar entry to a record's ordered list and map without
touching the `num_scalars` field. -/
def addScalarKeepCount (r : RawDmapRecord) (n : List Nat) (s : RawDmapScalar) :
    RawDmapRecord :=
  { r with scalar_list := r.scalar_list ++ [n], scalars := r.scalars.insert n s }

/-- Appends one scalar entry to a record's ordered list and map and
increments `num_scalars` accordingly (keeping the record well-formed). -/
def addScalarBumpCount (r : RawDmapRecord) (n : List Nat) (s : RawDmapScalar) :
    RawDmapRecord :=
  { r with num_scalars := r.num_scalars + 1
           scalar_list := r.scalar_list ++ [n], scalars := r.scalars.insert n s }

/-- The dimension product as the decoder actually accumulates it: a left
fold with wrapping `i32` multiplication. -/
def wrapProd (dims : List Int) : Int := dims.foldl (fun t d => wrap32 (t * d)) 1

/-- Two byte buffers of equal length that agree at every index `≥ k`
(`getD` view, with default `0`). -/
def agreeFrom (k : Nat) (s1 s2 : List Nat) : Prop :=
  s1.length = s2.length ∧ ∀ i, k ≤ i → s1.getD i 0 = s2.getD i 0

/-- The nested parser only moves the cursor forward. -/
def NestedMono (nested : NestedFn) : Prop :=
  ∀ (s : List Nat) (p : Nat) (r : RawDmapRecord) (p' : Nat),
    nested s p = .ok (r, p') → p ≤ p'

/-- Two nested parsers agree on two buffers at every position `≥ k`. -/
def NestedCongr (k : Nat) (s1 s2 : List Nat) (n1 n2 : NestedFn) : Prop :=
  ∀ p, k ≤ p → n1 s1 p = n2 s2 p

/-! ## Theorems

Basic facts about the byte-level integer codec. -/

theorem leBytes_length (w : Nat) : ∀ n, (leBytes w n).length = w := by
  induction w with
  | zero => intro n; rfl
  | succ w ih => intro n; simp [leBytes, ih]

theorem leVal_leBytes (w : Nat) : ∀ n, n < 2 ^ (8 * w) → leVal (leBytes w n) = n := by
  induction w with
  | zero =>
    intro n h
    simp only [Nat.mul_zero, pow_zero, Nat.lt_one_iff] at h
    simp [h, leBytes, leVal]
  | succ w ih =>
    intro n h
    have hp : 2 ^ (8 * (w + 1)) = 2 ^ (8 * w) * 256 := by
      rw [Nat.mul_succ, pow_add]; norm_num
    have hdiv : n / 256 < 2 ^ (8 * w) := by
      rw [Nat.div_lt_iff_lt_mul (by norm_num : 0 < 256)]
      omega
    simp only [leBytes, leVal, ih (n / 256) hdiv]
    omega

theorem toUnsigned_lt (w : Nat) (x : Int) : toUnsigned w x < 2 ^ w := by
  unfold toUnsigned
  have hne : ((2 ^ w : Nat) : Int) ≠ 0 := by positivity
  have h1 : x % ((2 ^ w : Nat) : Int) < ((2 ^ w : Nat) : Int) :=
    Int.emod_lt_of_pos x (by positivity)
  have h0 : 0 ≤ x % ((2 ^ w : Nat) : Int) := Int.emod_nonneg x hne
  omega

theorem toUnsigned_of_nonneg (w : Nat) (x : Int) (h0 : 0 ≤ x) (h1 : x < ((2 ^ w : Nat) : Int)) :
    ((toUnsigned w x : Nat) : Int) = x := by
  unfold toUnsigned
  rw [Int.emod_eq_of_lt h0 h1]
  omega

theorem toUnsigned_of_neg (w : Nat) (x : Int) (h0 : -((2 ^ w : Nat) : Int) ≤ x) (h1 : x < 0) :
    ((toUnsigned w x : Nat) : Int) = x + ((2 ^ w : Nat) : Int) := by
  unfold toUnsigned
  have key : (x + ((2 ^ w : Nat) : Int) * 1) % ((2 ^ w : Nat) : Int) = x % ((2 ^ w : Nat) : Int) :=
    Int.add_mul_emod_self_left x ((2 ^ w : Nat) : Int) 1
  have hx : x % ((2 ^ w : Nat) : Int) = x + ((2 ^ w : Nat) : Int) := by
    rw [mul_one] at key
    rw [← key, Int.emod_eq_of_lt (by omega) (by omega)]
  omega

theorem toSigned_toUnsigned (w : Nat) (x : Int) (hw : 1 ≤ w)
    (h0 : -((2 ^ (w - 1) : Nat) : Int) ≤ x) (h1 : x < ((2 ^ (w - 1) : Nat) : Int)) :
    toSigned w (toUnsigned w x) = x := by
  have hsplit : (2 ^ w : Nat) = 2 ^ (w - 1) * 2 := by
    conv_lhs => rw [show w = (w - 1) + 1 by omega]
    rw [pow_succ]
  have hcast : ((2 ^ w : Nat) : Int) = ((2 ^ (w - 1) : Nat) : Int) * 2 := by
    exact_mod_cast congrArg (fun n => ((n : Nat) : Int)) hsplit
  rcases le_or_lt 0 x with hx | hx
  · have hux := toUnsigned_of_nonneg w x hx (by omega)
    have hlt : toUnsigned w x < 2 ^ (w - 1) := by omega
    unfold toSigned
    rw [Nat.mod_eq_of_lt (by omega)]
    simp only [if_pos hlt]
    omega
  · have hux := toUnsigned_of_neg w x (by omega) hx
    have hge : ¬ toUnsigned w x < 2 ^ (w - 1) := by omega
    have hltw : toUnsigned w x < 2 ^ w := toUnsigned_lt w x
    unfold toSigned
    rw [Nat.mod_eq_of_lt hltw]
    simp only [if_neg hge]
    omega

theorem toSigned_of_small (w : Nat) (n : Nat) (h : n < 2 ^ (w - 1)) (hw : 1 ≤ w) :
    toSigned w n = (n : Int) := by
  have hsplit : (2 ^ w : Nat) = 2 ^ (w - 1) * 2 := by
    conv_lhs => rw [show w = (w - 1) + 1 by omega]
    rw [pow_succ]
  unfold toSigned
  rw [Nat.mod_eq_of_lt (by omega)]
  simp [h]

theorem wrap32_eq_self (x : Int) (h0 : -2147483648 ≤ x) (h1 : x < 2147483648) :
    wrap32 x = x := by
  have hc : ((2 ^ (32 - 1) : Nat) : Int) = 2147483648 := by norm_num
  exact toSigned_toUnsigned 32 x (by norm_num) (by omega) (by omega)

/-! Facts about slices of concatenated buffers. -/

theorem sliceN_append (pre rest : List Nat) (n : Nat) :
    sliceN (pre ++ rest) pre.length n = rest.take n := by
  simp [sliceN, List.drop_left]

theorem take_of_append (enc post : List Nat) : (enc ++ post).take enc.length = enc :=
  List.take_left enc post

theorem sliceN_exact (pre enc post : List Nat) :
    sliceN (pre ++ (enc ++ post)) pre.length enc.length = enc := by
  rw [sliceN_append]; exact take_of_append enc post

theorem getD_of_drop (l : List Nat) (n b : Nat) (rest : List Nat)
    (h : l.drop n = b :: rest) : l.getD n 0 = b := by
  induction n generalizing l with
  | zero => simp only [List.drop_zero] at h; subst h; rfl
  | succ n ih =>
    cases l with
    | nil => simp at h
    | cons x t =>
      simp only [List.drop_succ_cons] at h
      simpa [List.getD] using ih t h

/-! The string scanner finds the first NUL terminator. -/

theorem scanGo_ok (stream : List Nat) (position : Nat) :
    ∀ (s : List Nat) (post : List Nat) (bc : Nat),
      stream.drop (position + bc) = s ++ 0 :: post →
      (∀ b ∈ s, b ≠ 0) →
      scanGo stream position bc (stream.length - (position + bc)) = .ok (bc + s.length) := by
  intro s
  induction s with
  | nil =>
    intro post bc hdrop _
    have hlen : stream.length - (position + bc) = post.length + 1 := by
      have := congrArg List.length hdrop
      simpa [List.length_drop] using this
    have hget : stream.getD (position + bc) 0 = 0 := getD_of_drop _ _ _ _ (by simpa using hdrop)
    rw [hlen]
    simp only [scanGo]
    rw [hget]
    simp
  | cons b s ih =>
    intro post bc hdrop hne
    have hb : b ≠ 0 := hne b (by simp)
    have hlenD : stream.length - (position + bc) = s.length + post.length + 2 := by
      have := congrArg List.length hdrop
      simp [List.length_drop] at this
      omega
    have hget : stream.getD (position + bc) 0 = b := getD_of_drop _ _ _ _ (by simpa using hdrop)
    have hdrop2 : stream.drop (position + (bc + 1)) = s ++ 0 :: post := by
      have h1 : stream.drop (position + bc + 1) = (stream.drop (position + bc)).drop 1 := by
        rw [List.drop_drop]
      rw [show position + (bc + 1) = position + bc + 1 by ring, h1, hdrop]
      simp
    have hlen2 : (stream.drop (position + (bc + 1))).length = s.length + post.length + 1 := by
      rw [hdrop2]; simp; omega
    have hlenge : position + bc + 2 ≤ stream.length := by
      simp [List.length_drop] at hlen2
      omega
    have hR : stream.length - (position + bc) = (stream.length - (position + (bc + 1))) + 1 := by
      omega
    rw [hR]
    simp only [scanGo]
    rw [hget]
    have hbne : (b != 0) = true := by simpa using hb
    rw [hbne]
    simp only [if_true]
    have hno : ¬ stream.length ≤ position + (bc + 1) := by omega
    rw [if_neg hno]
    rw [ih post (bc + 1) hdrop2 (fun x hx => hne x (by simp [hx]))]
    congr 1
    simp
    omega

theorem scanTerm_ok (pre s post : List Nat) (hne : ∀ b ∈ s, b ≠ 0) :
    scanTerm (pre ++ (s ++ 0 :: post)) pre.length 0 = .ok s.length := by
  have hdrop : (pre ++ (s ++ 0 :: post)).drop (pre.length + 0) = s ++ 0 :: post := by
    rw [Nat.add_zero]
    exact List.drop_left pre (s ++ 0 :: post)
  unfold scanTerm
  have h0 := scanGo_ok (pre ++ (s ++ 0 :: post)) pre.length s post 0 hdrop hne
  simpa using h0


/-! Tag-table facts. -/

theorem contains_get_key (v : DmapType) : DmapType.all_keys.contains v.get_key = true := by
  cases v <;> rfl

theorem get_type_from_key_get_key (v : DmapType) :
    DmapType.get_type_from_key v.get_key = .ok (shapeOf v) := by
  cases v <;> rfl

theorem toUnsigned_natCast (w : Nat) (x : Nat) (h : x < 2 ^ w) : toUnsigned w (x : Int) = x := by
  have h2 := toUnsigned_of_nonneg w (x : Int) (by positivity) (by exact_mod_cast h)
  exact_mod_cast h2

theorem contains_eq_false_iff (s : List Nat) : s.contains 0 = false ↔ ∀ b ∈ s, b ≠ 0 := by
  simp only [List.contains_eq_any_beq, List.any_eq_false, beq_iff_eq]
  constructor
  · intro h b hb he
    exact absurd he.symm (h b hb)
  · intro h b hb he
    exact h b hb he.symm

theorem decode_i8 (x : Int) (h0 : -128 ≤ x) (h1 : x < 128) :
    toSigned 8 (leVal (leBytes 1 (toUnsigned 8 x))) = x := by
  rw [leVal_leBytes 1 _ (by simpa using toUnsigned_lt 8 x)]
  have hc : ((2 ^ (8 - 1) : Nat) : Int) = 128 := by norm_num
  exact toSigned_toUnsigned 8 x (by norm_num) (by omega) (by omega)

theorem decode_i16 (x : Int) (h0 : -32768 ≤ x) (h1 : x < 32768) :
    toSigned 16 (leVal (leBytes 2 (toUnsigned 16 x))) = x := by
  rw [leVal_leBytes 2 _ (by simpa using toUnsigned_lt 16 x)]
  have hc : ((2 ^ (16 - 1) : Nat) : Int) = 32768 := by norm_num
  exact toSigned_toUnsigned 16 x (by norm_num) (by omega) (by omega)

theorem decode_i32 (x : Int) (h0 : -2147483648 ≤ x) (h1 : x < 2147483648) :
    toSigned 32 (leVal (leBytes 4 (toUnsigned 32 x))) = x := by
  rw [leVal_leBytes 4 _ (by simpa using toUnsigned_lt 32 x)]
  have hc : ((2 ^ (32 - 1) : Nat) : Int) = 2147483648 := by norm_num
  exact toSigned_toUnsigned 32 x (by norm_num) (by omega) (by omega)

theorem decode_u8 (x : Nat) (h : x < 256) :
    leVal (leBytes 1 (toUnsigned 8 (x : Int))) = x := by
  rw [leVal_leBytes 1 _ (by simpa using toUnsigned_lt 8 (x : Int))]
  exact toUnsigned_natCast 8 x (by norm_num; omega)

theorem decode_bits32 (b : Nat) (h : b < 2 ^ 32) : leVal (leBytes 4 b) = b :=
  leVal_leBytes 4 b (by simpa using h)

theorem decode_bits64 (b : Nat) (h : b < 2 ^ 64) : leVal (leBytes 8 b) = b :=
  leVal_leBytes 8 b (by simpa using h)

/-- Reading at the boundary of a concatenated buffer recovers any encoded
round-trippable value. -/
theorem read_dataN_ok (nested : NestedFn) (pre post : List Nat) (v : DmapType)
    (h : goodVal v = true) :
    read_dataN nested (pre ++ (v.to_bytes ++ post)) pre.length (shapeOf v) =
      .ok (v, pre.length + v.to_bytes.length) := by
  cases v with
  | DMAP => simp [goodVal] at h
  | LONG x => simp [goodVal] at h
  | USHORT x => simp [goodVal] at h
  | UINT x => simp [goodVal] at h
  | ULONG x => simp [goodVal] at h
  | CHAR x =>
    have hx : -128 ≤ x ∧ x < 128 := by
      simpa [goodVal, decide_eq_true_eq] using h
    simp only [shapeOf, DmapType.to_bytes]
    have hs := sliceN_exact pre (leBytes 1 (toUnsigned 8 x)) post
    rw [leBytes_length] at hs
    simp only [read_dataN, DmapType.get_num_bytes, List.length_append, leBytes_length, hs]
    rw [if_neg (by omega), if_neg (by omega)]
    simp only [decode_i8 x hx.1 hx.2]
  | SHORT x =>
    have hx : -32768 ≤ x ∧ x < 32768 := by
      simpa [goodVal, decide_eq_true_eq] using h
    simp only [shapeOf, DmapType.to_bytes]
    have hs := sliceN_exact pre (leBytes 2 (toUnsigned 16 x)) post
    rw [leBytes_length] at hs
    simp only [read_dataN, DmapType.get_num_bytes, List.length_append, leBytes_length, hs]
    rw [if_neg (by omega), if_neg (by omega)]
    simp only [decode_i16 x hx.1 hx.2]
  | INT x =>
    have hx : -2147483648 ≤ x ∧ x < 2147483648 := by
      simpa [goodVal, decide_eq_true_eq] using h
    simp only [shapeOf, DmapType.to_bytes]
    have hs := sliceN_exact pre (leBytes 4 (toUnsigned 32 x)) post
    rw [leBytes_length] at hs
    simp only [read_dataN, DmapType.get_num_bytes, List.length_append, leBytes_length, hs]
    rw [if_neg (by omega), if_neg (by omega)]
    simp only [decode_i32 x hx.1 hx.2]
  | UCHAR x =>
    have hx : x < 256 := by
      simpa [goodVal, decide_eq_true_eq] using h
    simp only [shapeOf, DmapType.to_bytes]
    have hs := sliceN_exact pre (leBytes 1 (toUnsigned 8 (x : Int))) post
    rw [leBytes_length] at hs
    simp only [read_dataN, DmapType.get_num_bytes, List.length_append, leBytes_length, hs]
    rw [if_neg (by omega), if_neg (by omega)]
    simp only [decode_u8 x hx]
  | FLOAT b =>
    have hx : b < 2 ^ 32 ∧ isNan32 b = false := by
      simpa [goodVal, decide_eq_true_eq] using h
    simp only [shapeOf, DmapType.to_bytes]
    have hs := sliceN_exact pre (leBytes 4 b) post
    rw [leBytes_length] at hs
    simp only [read_dataN, DmapType.get_num_bytes, List.length_append, leBytes_length, hs]
    rw [if_neg (by omega), if_neg (by omega)]
    simp only [decode_bits32 b hx.1]
  | DOUBLE b =>
    have hx : b < 2 ^ 64 ∧ isNan64 b = false := by
      simpa [goodVal, decide_eq_true_eq] using h
    simp only [shapeOf, DmapType.to_bytes]
    have hs := sliceN_exact pre (leBytes 8 b) post
    rw [leBytes_length] at hs
    simp only [read_dataN, DmapType.get_num_bytes, List.length_append, leBytes_length, hs]
    rw [if_neg (by omega), if_neg (by omega)]
    simp only [decode_bits64 b hx.1]
  | STRING s =>
    have hx : utf8Valid s = true ∧ s.contains 0 = false := by
      simpa [goodVal] using h
    have hne : ∀ b ∈ s, b ≠ 0 := (contains_eq_false_iff s).mp hx.2
    simp only [shapeOf, DmapType.to_bytes]
    have hassoc : (s ++ [0]) ++ post = s ++ 0 :: post := by simp
    have hscan : scanTerm (pre ++ ((s ++ [0]) ++ post)) pre.length 0 = .ok s.length := by
      rw [hassoc]; exact scanTerm_ok pre s post hne
    have hs : sliceN (pre ++ ((s ++ [0]) ++ post)) pre.length s.length = s := by
      rw [hassoc]
      have h1 := sliceN_append pre (s ++ 0 :: post) s.length
      rw [h1]
      have h2 := take_of_append s (0 :: post)
      exact h2
    simp only [read_dataN, DmapType.get_num_bytes, List.length_append]
    rw [if_neg (by omega), if_neg (by omega)]
    simp only [hscan, hs, hx.1, if_true]
    simp

theorem get_key_range (v : DmapType) : -128 ≤ v.get_key ∧ v.get_key < 128 := by
  cases v <;> simp [DmapType.get_key] <;> norm_num

/-- Parsing one encoded scalar entry (`name ++ NUL ++ tag ++ value`) at a
concatenation boundary. -/
theorem parse_scalarN_ok (nested : NestedFn) (pre rest name : List Nat) (s : RawDmapScalar)
    (hname : goodName name = true) (hs : goodScalar s = true) :
    parse_scalarN nested (pre ++ ((name ++ [0] ++ s.to_bytes) ++ rest)) pre.length =
      .ok ((name, s), pre.length + (name.length + 1 + s.to_bytes.length)) := by
  obtain ⟨hmode, hval⟩ : s.mode = 6 ∧ goodVal s.data = true := by
    have h0 := hs
    simp only [goodScalar, Bool.and_eq_true, beq_iff_eq] at h0
    exact h0
  have hnameval : goodVal (.STRING name) = true := by
    simp only [goodVal]
    simp only [goodName] at hname
    exact hname
  obtain ⟨d, m⟩ := s
  simp only at hmode hval
  subst hmode
  cases d with
  | DMAP => simp [goodVal] at hval
  | LONG x => simp [goodVal] at hval
  | USHORT x => simp [goodVal] at hval
  | UINT x => simp [goodVal] at hval
  | ULONG x => simp [goodVal] at hval
  | CHAR x =>
    have h1 := read_dataN_ok nested pre
      ((DmapType.CHAR (DmapType.CHAR x).get_key).to_bytes ++ ((DmapType.CHAR x).to_bytes ++ rest))
      (.STRING name) hnameval
    have h2 := read_dataN_ok nested (pre ++ (name ++ [0]))
      ((DmapType.CHAR x).to_bytes ++ rest) (.CHAR (DmapType.CHAR x).get_key)
      (by simp [goodVal, DmapType.get_key])
    have h3 := read_dataN_ok nested
      ((pre ++ (name ++ [0])) ++ (DmapType.CHAR (DmapType.CHAR x).get_key).to_bytes)
      rest (.CHAR x) hval
    have hb1 := contains_get_key (DmapType.CHAR x)
    have hb2 := get_type_from_key_get_key (DmapType.CHAR x)
    simp only [shapeOf, DmapType.get_key, DmapType.to_bytes, RawDmapScalar.to_bytes,
      List.append_assoc, List.singleton_append, List.cons_append, List.nil_append,
      List.length_append, List.length_cons, List.length_nil,
      leBytes_length] at h1 h2 h3 hb1 hb2 ⊢
    simp [parse_scalarN, DmapType.all_keys, Nat.add_assoc, h1, h2, h3, hb1, hb2] <;> omega
  | SHORT x =>
    have h1 := read_dataN_ok nested pre
      ((DmapType.CHAR (DmapType.SHORT x).get_key).to_bytes ++ ((DmapType.SHORT x).to_bytes ++ rest))
      (.STRING name) hnameval
    have h2 := read_dataN_ok nested (pre ++ (name ++ [0]))
      ((DmapType.SHORT x).to_bytes ++ rest) (.CHAR (DmapType.SHORT x).get_key)
      (by simp [goodVal, DmapType.get_key])
    have h3 := read_dataN_ok nested
      ((pre ++ (name ++ [0])) ++ (DmapType.CHAR (DmapType.SHORT x).get_key).to_bytes)
      rest (.SHORT x) hval
    have hb1 := contains_get_key (DmapType.SHORT x)
    have hb2 := get_type_from_key_get_key (DmapType.SHORT x)
    simp only [shapeOf, DmapType.get_key, DmapType.to_bytes, RawDmapScalar.to_bytes,
      List.append_assoc, List.singleton_append, List.cons_append, List.nil_append,
      List.length_append, List.length_cons, List.length_nil,
      leBytes_length] at h1 h2 h3 hb1 hb2 ⊢
    simp [parse_scalarN, DmapType.all_keys, Nat.add_assoc, h1, h2, h3, hb1, hb2] <;> omega
  | INT x =>
    have h1 := read_dataN_ok nested pre
      ((DmapType.CHAR (DmapType.INT x).get_key).to_bytes ++ ((DmapType.INT x).to_bytes ++ rest))
      (.STRING name) hnameval
    have h2 := read_dataN_ok nested (pre ++ (name ++ [0]))
      ((DmapType.INT x).to_bytes ++ rest) (.CHAR (DmapType.INT x).get_key)
      (by simp [goodVal, DmapType.get_key])
    have h3 := read_dataN_ok nested
      ((pre ++ (name ++ [0])) ++ (DmapType.CHAR (DmapType.INT x).get_key).to_bytes)
      rest (.INT x) hval
    have hb1 := contains_get_key (DmapType.INT x)
    have hb2 := get_type_from_key_get_key (DmapType.INT x)
    simp only [shapeOf, DmapType.get_key, DmapType.to_bytes, RawDmapScalar.to_bytes,
      List.append_assoc, List.singleton_append, List.cons_append, List.nil_append,
      List.length_append, List.length_cons, List.length_nil,
      leBytes_length] at h1 h2 h3 hb1 hb2 ⊢
    simp [parse_scalarN, DmapType.all_keys, Nat.add_assoc, h1, h2, h3, hb1, hb2] <;> omega
  | FLOAT b =>
    have h1 := read_dataN_ok nested pre
      ((DmapType.CHAR (DmapType.FLOAT b).get_key).to_bytes ++ ((DmapType.FLOAT b).to_bytes ++ rest))
      (.STRING name) hnameval
    have h2 := read_dataN_ok nested (pre ++ (name ++ [0]))
      ((DmapType.FLOAT b).to_bytes ++ rest) (.CHAR (DmapType.FLOAT b).get_key)
      (by simp [goodVal, DmapType.get_key])
    have h3 := read_dataN_ok nested
      ((pre ++ (name ++ [0])) ++ (DmapType.CHAR (DmapType.FLOAT b).get_key).to_bytes)
      rest (.FLOAT b) hval
    have hb1 := contains_get_key (DmapType.FLOAT b)
    have hb2 := get_type_from_key_get_key (DmapType.FLOAT b)
    simp only [shapeOf, DmapType.get_key, DmapType.to_bytes, RawDmapScalar.to_bytes,
      List.append_assoc, List.singleton_append, List.cons_append, List.nil_append,
      List.length_append, List.length_cons, List.length_nil,
      leBytes_length] at h1 h2 h3 hb1 hb2 ⊢
    simp [parse_scalarN, DmapType.all_keys, Nat.add_assoc, h1, h2, h3, hb1, hb2] <;> omega
  | DOUBLE b =>
    have h1 := read_dataN_ok nested pre
      ((DmapType.CHAR (DmapType.DOUBLE b).get_key).to_bytes ++ ((DmapType.DOUBLE b).to_bytes ++ rest))
      (.STRING name) hnameval
    have h2 := read_dataN_ok nested (pre ++ (name ++ [0]))
      ((DmapType.DOUBLE b).to_bytes ++ rest) (.CHAR (DmapType.DOUBLE b).get_key)
      (by simp [goodVal, DmapType.get_key])
    have h3 := read_dataN_ok nested
      ((pre ++ (name ++ [0])) ++ (DmapType.CHAR (DmapType.DOUBLE b).get_key).to_bytes)
      rest (.DOUBLE b) hval
    have hb1 := contains_get_key (DmapType.DOUBLE b)
    have hb2 := get_type_from_key_get_key (DmapType.DOUBLE b)
    simp only [shapeOf, DmapType.get_key, DmapType.to_bytes, RawDmapScalar.to_bytes,
      List.append_assoc, List.singleton_append, List.cons_append, List.nil_append,
      List.length_append, List.length_cons, List.length_nil,
      leBytes_length] at h1 h2 h3 hb1 hb2 ⊢
    simp [parse_scalarN, DmapType.all_keys, Nat.add_assoc, h1, h2, h3, hb1, hb2] <;> omega
  | STRING t =>
    have h1 := read_dataN_ok nested pre
      ((DmapType.CHAR (DmapType.STRING t).get_key).to_bytes ++ ((DmapType.STRING t).to_bytes ++ rest))
      (.STRING name) hnameval
    have h2 := read_dataN_ok nested (pre ++ (name ++ [0]))
      ((DmapType.STRING t).to_bytes ++ rest) (.CHAR (DmapType.STRING t).get_key)
      (by simp [goodVal, DmapType.get_key])
    have h3 := read_dataN_ok nested
      ((pre ++ (name ++ [0])) ++ (DmapType.CHAR (DmapType.STRING t).get_key).to_bytes)
      rest (.STRING t) hval
    have hb1 := contains_get_key (DmapType.STRING t)
    have hb2 := get_type_from_key_get_key (DmapType.STRING t)
    simp only [shapeOf, DmapType.get_key, DmapType.to_bytes, RawDmapScalar.to_bytes,
      List.append_assoc, List.singleton_append, List.cons_append, List.nil_append,
      List.length_append, List.length_cons, List.length_nil,
      leBytes_length] at h1 h2 h3 hb1 hb2 ⊢
    simp [parse_scalarN, DmapType.all_keys, Nat.add_assoc, h1, h2, h3, hb1, hb2] <;> omega
  | UCHAR x =>
    have h1 := read_dataN_ok nested pre
      ((DmapType.CHAR (DmapType.UCHAR x).get_key).to_bytes ++ ((DmapType.UCHAR x).to_bytes ++ rest))
      (.STRING name) hnameval
    have h2 := read_dataN_ok nested (pre ++ (name ++ [0]))
      ((DmapType.UCHAR x).to_bytes ++ rest) (.CHAR (DmapType.UCHAR x).get_key)
      (by simp [goodVal, DmapType.get_key])
    have h3 := read_dataN_ok nested
      ((pre ++ (name ++ [0])) ++ (DmapType.CHAR (DmapType.UCHAR x).get_key).to_bytes)
      rest (.UCHAR x) hval
    have hb1 := contains_get_key (DmapType.UCHAR x)
    have hb2 := get_type_from_key_get_key (DmapType.UCHAR x)
    simp only [shapeOf, DmapType.get_key, DmapType.to_bytes, RawDmapScalar.to_bytes,
      List.append_assoc, List.singleton_append, List.cons_append, List.nil_append,
      List.length_append, List.length_cons, List.length_nil,
      leBytes_length] at h1 h2 h3 hb1 hb2 ⊢
    simp [parse_scalarN, DmapType.all_keys, Nat.add_assoc, h1, h2, h3, hb1, hb2] <;> omega

/-! Map lemmas. -/

theorem Smap.lookup_insert_self {α : Type} (m : Smap α) (k : List Nat) (v : α) :
    (m.insert k v).lookup k = some v := by
  simp only [Smap.insert, Smap.lookup]
  rw [List.find?_cons_of_pos _ (by simp)]

theorem Smap.find_filter_ne {α : Type} (k k' : List Nat) (h : ¬ k' = k) :
    ∀ m : List (List Nat × α),
      List.find? (fun p => p.1 == k') (List.filter (fun p => !(p.1 == k)) m) =
        List.find? (fun p => p.1 == k') m := by
  intro m
  induction m with
  | nil => rfl
  | cons p t ih =>
    obtain ⟨pk, pv⟩ := p
    by_cases hk : pk = k
    · subst hk
      have h1 : (pk == k') = false := by
        simp only [beq_eq_false_iff_ne, ne_eq]
        intro he
        exact h he.symm
      rw [List.filter_cons_of_neg (by simp)]
      rw [List.find?_cons_of_neg _ (by simp [h1])]
      exact ih
    · rw [List.filter_cons_of_pos (by simp [hk])]
      by_cases hk' : pk = k'
      · rw [List.find?_cons_of_pos _ (by simp [hk']), List.find?_cons_of_pos _ (by simp [hk'])]
      · rw [List.find?_cons_of_neg _ (by simp [hk']), List.find?_cons_of_neg _ (by simp [hk'])]
        exact ih

theorem Smap.lookup_insert_ne {α : Type} (m : Smap α) (k k' : List Nat) (v : α)
    (h : ¬ k' = k) : (m.insert k v).lookup k' = m.lookup k' := by
  simp only [Smap.insert, Smap.lookup]
  rw [List.find?_cons_of_neg _ (by simp; intro he; exact h he.symm)]
  rw [Smap.find_filter_ne k k' h m]

/-! The scalar-entry loop parses a concatenated run of encoded entries. -/

theorem parse_scalars_loopN_ok (nested : NestedFn) :
    ∀ (names : List (List Nat)) (m : Smap RawDmapScalar) (eb : List Nat)
      (pre rest : List Nat) (lst0 : List (List Nat)) (mp0 : Smap RawDmapScalar),
      encScalarEntries m names = .ok eb →
      (∀ n ∈ names, goodName n = true ∧
          ∃ s, m.lookup n = some s ∧ goodScalar s = true) →
      ∃ mpF,
        parse_scalars_loopN nested (pre ++ (eb ++ rest)) names.length pre.length lst0 mp0 =
          .ok ((lst0 ++ names, mpF), pre.length + eb.length) ∧
        (∀ n, n ∈ names → mpF.lookup n = m.lookup n) ∧
        (∀ n, ¬ n ∈ names → mpF.lookup n = mp0.lookup n) := by
  intro names
  induction names with
  | nil =>
    intro m eb pre rest lst0 mp0 henc _
    have heb : eb = [] := by
      simp only [encScalarEntries, PRes.ok.injEq] at henc
      exact henc.symm
    subst heb
    refine ⟨mp0, ?_, by simp, fun n _ => rfl⟩
    simp [parse_scalars_loopN]
  | cons n ns ih =>
    intro m eb pre rest lst0 mp0 henc hgood
    obtain ⟨hn, s, hls, hgs⟩ :
        goodName n = true ∧ ∃ s, m.lookup n = some s ∧ goodScalar s = true := by
      obtain ⟨h1, h2⟩ := hgood n (by simp)
      exact ⟨h1, h2⟩
    simp only [encScalarEntries] at henc
    rw [hls] at henc
    cases hrec : encScalarEntries m ns with
    | ok bs =>
      rw [hrec] at henc
      simp only [PRes.ok.injEq] at henc
      subst henc
      have hstep := parse_scalarN_ok nested pre (bs ++ rest) n s hn hgs
      have hIH := ih m bs (pre ++ (n ++ [0] ++ s.to_bytes)) rest (lst0 ++ [n])
        (mp0.insert n s) hrec (fun x hx => hgood x (by simp [hx]))
      obtain ⟨mpF, hloop, hin, hout⟩ := hIH
      refine ⟨mpF, ?_, ?_, ?_⟩
      · simp only [List.length_cons, parse_scalars_loopN]
        have hB : pre ++ ((n ++ [0] ++ s.to_bytes ++ bs) ++ rest) =
            pre ++ ((n ++ [0] ++ s.to_bytes) ++ (bs ++ rest)) := by
          simp [List.append_assoc]
        rw [hB, hstep]
        have hB2 : pre ++ ((n ++ [0] ++ s.to_bytes) ++ (bs ++ rest)) =
            (pre ++ (n ++ [0] ++ s.to_bytes)) ++ (bs ++ rest) := by
          simp [List.append_assoc]
        have hpos : pre.length + (n.length + 1 + s.to_bytes.length) =
            (pre ++ (n ++ [0] ++ s.to_bytes)).length := by
          simp
          omega
        rw [hpos, hB2]
        simp only [List.append_assoc, List.singleton_append, List.cons_append, List.nil_append,
          List.length_append, List.length_cons, List.length_nil] at hloop ⊢
        rw [hloop]
        simp only [PRes.ok.injEq, Prod.mk.injEq, and_true, true_and, and_self]
        omega
      · intro x hx
        rcases List.mem_cons.mp hx with hx1 | hx2
        · subst hx1
          by_cases hxin : x ∈ ns
          · exact hin x hxin
          · rw [hout x hxin, Smap.lookup_insert_self, hls]
        · exact hin x hx2
      · intro x hx
        have hx1 : ¬ x = n := fun he => hx (by simp [he])
        have hx2 : ¬ x ∈ ns := fun he => hx (by simp [he])
        rw [hout x hx2, Smap.lookup_insert_ne mp0 n x s hx1]
    | err e => rw [hrec] at henc; exact absurd henc (by simp)
    | crash c => rw [hrec] at henc; exact absurd henc (by simp)
    | nofuel => rw [hrec] at henc; exact absurd henc (by simp)

/-! Dimension products and byte-length accounting. -/

theorem foldl_mul_shift (l : List Int) : ∀ a : Int, l.foldl (· * ·) a = a * l.foldl (· * ·) 1 := by
  induction l with
  | nil => intro a; simp
  | cons x t ih =>
    intro a
    simp only [List.foldl_cons]
    rw [ih (a * x), ih (1 * x)]
    ring

theorem prodInt_cons (d : Int) (l : List Int) : prodInt (d :: l) = d * prodInt l := by
  simp only [prodInt, List.foldl_cons]
  rw [foldl_mul_shift l (1 * d)]
  ring

theorem prodInt_pos (l : List Int) (h : ∀ d ∈ l, 0 < d) : 0 < prodInt l := by
  induction l with
  | nil => simp [prodInt]
  | cons x t ih =>
    rw [prodInt_cons]
    exact mul_pos (h x (by simp)) (ih (fun d hd => h d (by simp [hd])))

theorem prodInt_ge_mem (l : List Int) (h : ∀ d ∈ l, 0 < d) : ∀ d ∈ l, d ≤ prodInt l := by
  induction l with
  | nil => intro d hd; simp at hd
  | cons x t ih =>
    intro d hd
    have hx : 0 < x := h x (by simp)
    have ht : ∀ e ∈ t, 0 < e := fun e he => h e (by simp [he])
    have htp : 0 < prodInt t := prodInt_pos t ht
    rw [prodInt_cons]
    rcases List.mem_cons.mp hd with h1 | h2
    · subst h1
      nlinarith
    · have := ih ht d h2
      nlinarith

theorem elem_len_pos (v : DmapType) (h : goodVal v = true) : 1 ≤ v.to_bytes.length := by
  cases v <;> simp [goodVal] at h <;> simp [DmapType.to_bytes, leBytes_length]

theorem elem_width_le (v : DmapType) (h : goodVal v = true) :
    v.get_num_bytes ≤ v.to_bytes.length := by
  cases v <;> simp [goodVal] at h <;>
    simp [DmapType.to_bytes, DmapType.get_num_bytes, leBytes_length]

theorem get_num_bytes_shapeOf (v : DmapType) :
    (shapeOf v).get_num_bytes = v.get_num_bytes := by
  cases v <;> rfl

theorem dims_bytes_length (dims : List Int) :
    ((dims.map (fun d => (DmapType.INT d).to_bytes)).flatten).length = 4 * dims.length := by
  induction dims with
  | nil => rfl
  | cons x t ih =>
    have hx : ((DmapType.INT x).to_bytes).length = 4 := by
      simp [DmapType.to_bytes, leBytes_length]
    simp only [List.map_cons, List.flatten_cons, List.length_append, ih, hx, List.length_cons]
    omega

theorem elems_len_ge_count (data : List DmapType) (h : ∀ x ∈ data, goodVal x = true) :
    data.length ≤ ((data.map DmapType.to_bytes).flatten).length := by
  induction data with
  | nil => simp
  | cons x t ih =>
    simp only [List.map_cons, List.flatten_cons, List.length_append, List.length_cons]
    have h1 := elem_len_pos x (h x (by simp))
    have h2 := ih (fun y hy => h y (by simp [hy]))
    omega

theorem elems_len_ge_width (data : List DmapType) (w : Nat)
    (h : ∀ x ∈ data, goodVal x = true ∧ x.get_num_bytes = w) :
    data.length * w ≤ ((data.map DmapType.to_bytes).flatten).length := by
  induction data with
  | nil => simp
  | cons x t ih =>
    simp only [List.map_cons, List.flatten_cons, List.length_append, List.length_cons]
    have h1 := elem_width_le x (h x (by simp)).1
    have h2 := (h x (by simp)).2
    have h3 := ih (fun y hy => h y (by simp [hy]))
    have h4 : (t.length + 1) * w = t.length * w + w := by ring
    omega

/-! The dimension loop of `parse_array` over encoded dimensions. -/

theorem read_dims_loopN_ok (nested : NestedFn) (dims : List Int) :
    ∀ (pre rest : List Nat) (rs acc_total : Int) (acc : List Int),
      (∀ d ∈ dims, 0 < d ∧ d ≤ rs) →
      0 < acc_total →
      acc_total * prodInt dims < 2147483648 →
      read_dims_loopN nested
          (pre ++ ((dims.map (fun d => (DmapType.INT d).to_bytes)).flatten ++ rest)) rs
          dims.length pre.length acc acc_total =
        .ok ((acc ++ dims, acc_total * prodInt dims), pre.length + 4 * dims.length) := by
  induction dims with
  | nil =>
    intro pre rest rs acc_total acc _ _ _
    simp [read_dims_loopN, prodInt]
  | cons d t ih =>
    intro pre rest rs acc_total acc hd hpos hbound
    have hdp : 0 < d := (hd d (by simp)).1
    have hdr : d ≤ rs := (hd d (by simp)).2
    have htpos : 0 < prodInt t := prodInt_pos t (fun e he => (hd e (by simp [he])).1)
    have hone : 1 ≤ acc_total := hpos
    have htone : 1 ≤ prodInt t := htpos
    have hbound2 : acc_total * d * prodInt t < 2147483648 := by
      rw [prodInt_cons] at hbound
      rw [mul_assoc]
      exact hbound
    have hda : d ≤ d * prodInt t :=
      le_mul_of_one_le_right (le_of_lt hdp) htone
    have hdb : d * prodInt t ≤ acc_total * (d * prodInt t) :=
      le_mul_of_one_le_left (le_of_lt (mul_pos hdp htpos)) hone
    have hd31 : d < 2147483648 := by
      rw [prodInt_cons] at hbound
      linarith
    have hread := read_dataN_ok nested pre
      (((t.map (fun d => (DmapType.INT d).to_bytes)).flatten) ++ rest) (.INT d)
      (by simp [goodVal, decide_eq_true_eq]; omega)
    have hstep_pos : 0 < acc_total * d := mul_pos hpos hdp
    have hstep_bound : acc_total * d * prodInt t < 2147483648 := hbound2
    have hwrap : wrap32 (acc_total * d) = acc_total * d := by
      apply wrap32_eq_self
      · linarith
      · have h1 : acc_total * d ≤ acc_total * d * prodInt t :=
          le_mul_of_one_le_right (le_of_lt hstep_pos) htone
        linarith
    have hIH := ih (pre ++ (DmapType.INT d).to_bytes) rest rs (acc_total * d) (acc ++ [d])
      (fun e he => hd e (by simp [he])) hstep_pos hstep_bound
    simp only [List.map_cons, List.flatten_cons, List.length_cons, read_dims_loopN]
    simp only [shapeOf, DmapType.to_bytes, List.append_assoc, List.length_append,
      leBytes_length] at hread hIH ⊢
    simp only [hread]
    rw [if_neg (show ¬ d ≤ 0 by omega), if_neg (show ¬ d > rs by omega)]
    rw [hwrap]
    simp only [hIH]
    simp only [PRes.ok.injEq, Prod.mk.injEq, List.append_assoc, List.singleton_append,
      prodInt_cons]
    refine ⟨⟨trivial, by ring⟩, by omega⟩

/-! The element loop of `parse_array` over encoded homogeneous elements. -/

theorem read_elems_loopN_ok (nested : NestedFn) (data : List DmapType) (shape : DmapType) :
    ∀ (pre rest : List Nat) (acc : List DmapType),
      (∀ x ∈ data, goodVal x = true ∧ shapeOf x = shape) →
      read_elems_loopN nested (pre ++ ((data.map DmapType.to_bytes).flatten ++ rest)) shape
          data.length pre.length acc =
        .ok (acc ++ data, pre.length + ((data.map DmapType.to_bytes).flatten).length) := by
  induction data with
  | nil =>
    intro pre rest acc _
    simp [read_elems_loopN]
  | cons x t ih =>
    intro pre rest acc h
    have hx := h x (by simp)
    have hread := read_dataN_ok nested pre (((t.map DmapType.to_bytes).flatten) ++ rest) x hx.1
    rw [hx.2] at hread
    have hIH := ih (pre ++ x.to_bytes) rest (acc ++ [x]) (fun y hy => h y (by simp [hy]))
    simp only [List.map_cons, List.flatten_cons, List.length_cons, read_elems_loopN]
    simp only [List.append_assoc, List.length_append] at hread hIH ⊢
    simp only [hread]
    simp only [hIH]
    simp only [PRes.ok.injEq, Prod.mk.injEq, List.append_assoc, List.singleton_append]
    exact ⟨trivial, by omega⟩

/-- Parsing one encoded array entry at a concatenation boundary.  The two
bounds hypotheses are what the enclosing record guarantees: the entry's bytes
fit inside the declared record size, and the record size is a genuine `i32`
value. -/
theorem parse_arrayN_ok (nested : NestedFn) (pre rest name : List Nat) (a : RawDmapArray)
    (record_size : Int) (ab : List Nat)
    (hname : goodName name = true) (hga : goodArray a = true)
    (henc : a.to_bytes = .ok ab)
    (habrs : ((ab.length : Nat) : Int) ≤ record_size)
    (hrsB : record_size < 2147483648) :
    parse_arrayN nested (pre ++ ((name ++ [0] ++ ab) ++ rest)) pre.length record_size =
      .ok ((name, a), pre.length + (name.length + 1 + ab.length)) := by
  obtain ⟨mode, dims, data⟩ := a
  simp only [goodArray, Bool.and_eq_true, beq_iff_eq, List.all_eq_true,
    decide_eq_true_eq] at hga
  obtain ⟨⟨⟨⟨hm, hdne⟩, hdall⟩, hmatch⟩, hlen⟩ := hga
  subst hm
  cases data with
  | nil => simp at hmatch
  | cons d0 ds =>
    simp only [List.all_eq_true, Bool.and_eq_true, beq_iff_eq] at hmatch
    have hall : ∀ x ∈ d0 :: ds, goodVal x = true ∧ shapeOf x = shapeOf d0 := hmatch
    -- unpack the encoder output
    simp only [RawDmapArray.to_bytes, PRes.ok.injEq] at henc
    -- byte-level length facts
    have htagl : ((DmapType.CHAR d0.get_key).to_bytes).length = 1 := by
      simp [DmapType.to_bytes, leBytes_length]
    have hndl : ∀ z : Int, ((DmapType.INT z).to_bytes).length = 4 := by
      intro z; simp [DmapType.to_bytes, leBytes_length]
    have hdimsl := dims_bytes_length dims
    have helemsge := elems_len_ge_count (d0 :: ds) (fun x hx => (hall x hx).1)
    have hdlpos : 0 < dims.length := by
      cases dims with
      | nil => simp at hdne
      | cons _ _ => simp
    have habl : ab.length = 1 + 4 + 4 * dims.length +
        (((d0 :: ds).map DmapType.to_bytes).flatten).length := by
      rw [← henc]
      simp only [List.length_append, htagl, hndl, hdimsl]
      try omega
    -- integer range facts
    have hlen31 : ((dims.length : Nat) : Int) < 2147483648 := by
      have : dims.length ≤ ab.length := by omega
      have h2 : ((ab.length : Nat) : Int) < 2147483648 := lt_of_le_of_lt habrs hrsB
      push_cast at h2 ⊢
      omega
    have hwrapnd : wrap32 ((dims.length : Nat) : Int) = ((dims.length : Nat) : Int) := by
      apply wrap32_eq_self
      · omega
      · exact hlen31
    have hprodlen : prodInt dims = (((d0 :: ds).length : Nat) : Int) := hlen.symm
    have hprodle : prodInt dims ≤ record_size := by
      rw [hprodlen]
      have h1 : (d0 :: ds).length ≤ ab.length := by omega
      push_cast
      push_cast at habrs
      omega
    have hprod31 : prodInt dims < 2147483648 := lt_of_le_of_lt hprodle hrsB
    have hprodpos : 0 < prodInt dims := prodInt_pos dims (fun d hd => (hdall d hd).1)
    have hdle : ∀ d ∈ dims, 0 < d ∧ d ≤ record_size := by
      intro d hd
      refine ⟨(hdall d hd).1, ?_⟩
      have := prodInt_ge_mem dims (fun e he => (hdall e he).1) d hd
      omega
    -- width bound
    have hwidth : ∀ x ∈ d0 :: ds, goodVal x = true ∧ x.get_num_bytes = d0.get_num_bytes := by
      intro x hx
      refine ⟨(hall x hx).1, ?_⟩
      have := congrArg DmapType.get_num_bytes (hall x hx).2
      rwa [get_num_bytes_shapeOf, get_num_bytes_shapeOf] at this
    have hwle := elems_len_ge_width (d0 :: ds) d0.get_num_bytes hwidth
    have hpw : prodInt dims * ((d0.get_num_bytes : Nat) : Int) ≤ record_size := by
      rw [hprodlen]
      have h1 : (d0 :: ds).length * d0.get_num_bytes ≤ ab.length := by omega
      push_cast
      push_cast at habrs
      push_cast at h1
      nlinarith [h1, habrs]
    have hpwpos : 0 ≤ prodInt dims * ((d0.get_num_bytes : Nat) : Int) := by positivity
    have hwrappw : wrap32 (prodInt dims * ((d0.get_num_bytes : Nat) : Int)) =
        prodInt dims * ((d0.get_num_bytes : Nat) : Int) := by
      apply wrap32_eq_self
      · omega
      · omega
    -- the reads
    have h1 := read_dataN_ok nested pre
      ((DmapType.CHAR d0.get_key).to_bytes ++
        ((DmapType.INT (wrap32 ((dims.length : Nat) : Int))).to_bytes ++
          ((dims.map (fun dim => (DmapType.INT dim).to_bytes)).flatten ++
            (((d0 :: ds).map DmapType.to_bytes).flatten ++ rest))))
      (.STRING name)
      (by simp only [goodVal]; simp only [goodName] at hname; exact hname)
    have h2 := read_dataN_ok nested (pre ++ (name ++ [0]))
      ((DmapType.INT (wrap32 ((dims.length : Nat) : Int))).to_bytes ++
        ((dims.map (fun dim => (DmapType.INT dim).to_bytes)).flatten ++
          (((d0 :: ds).map DmapType.to_bytes).flatten ++ rest)))
      (.CHAR d0.get_key)
      (by
        have := get_key_range d0
        simp [goodVal, decide_eq_true_eq]
        omega)
    have h3 := read_dataN_ok nested
      ((pre ++ (name ++ [0])) ++ (DmapType.CHAR d0.get_key).to_bytes)
      ((dims.map (fun dim => (DmapType.INT dim).to_bytes)).flatten ++
        (((d0 :: ds).map DmapType.to_bytes).flatten ++ rest))
      (.INT (wrap32 ((dims.length : Nat) : Int)))
      (by
        rw [hwrapnd]
        simp only [goodVal, Bool.and_eq_true, decide_eq_true_eq]
        omega)
    have hb1 := contains_get_key d0
    have hb2 := get_type_from_key_get_key d0
    have h4 := read_dims_loopN_ok nested dims
      (((pre ++ (name ++ [0])) ++ (DmapType.CHAR d0.get_key).to_bytes) ++
        (DmapType.INT (wrap32 ((dims.length : Nat) : Int))).to_bytes)
      ((((d0 :: ds).map DmapType.to_bytes).flatten) ++ rest)
      record_size 1 [] hdle (by norm_num) (by rw [one_mul]; exact hprod31)
    have h5 := read_elems_loopN_ok nested (d0 :: ds) (shapeOf d0)
      ((((pre ++ (name ++ [0])) ++ (DmapType.CHAR d0.get_key).to_bytes) ++
          (DmapType.INT (wrap32 ((dims.length : Nat) : Int))).to_bytes) ++
        ((dims.map (fun dim => (DmapType.INT dim).to_bytes)).flatten))
      rest [] hall
    -- assemble
    rw [← henc]
    rw [hwrapnd] at h3
    have hsb : (DmapType.STRING name).to_bytes = name ++ [0] := rfl
    have hlenab : dims.length ≤ ab.length := by omega
    have hc1 : ¬ (((dims.length : Nat) : Int) > record_size) := by
      have h0 : ((dims.length : Nat) : Int) ≤ ((ab.length : Nat) : Int) := by
        exact_mod_cast hlenab
      omega
    have hc2 : ¬ (((dims.length : Nat) : Int) ≤ 0) := by
      have h0 : 0 < ((dims.length : Nat) : Int) := by exact_mod_cast hdlpos
      omega
    have hc3 : ¬ (prodInt dims > record_size) := not_lt.mpr hprodle
    have hc4 : ¬ (prodInt dims * ((d0.get_num_bytes : Nat) : Int) > record_size) :=
      not_lt.mpr hpw
    have htoNat : (((dims.length : Nat) : Int)).toNat = dims.length := by omega
    have htoNat2 : (prodInt dims).toNat = ds.length + 1 := by
      rw [hprodlen]
      simp
    have hpos5 : ((((pre ++ (name ++ [0])) ++ (DmapType.CHAR d0.get_key).to_bytes) ++
        (DmapType.INT (wrap32 ((dims.length : Nat) : Int))).to_bytes) ++
        ((dims.map (fun dim => (DmapType.INT dim).to_bytes)).flatten)).length =
        pre.length + (name.length + (6 + 4 * dims.length)) := by
      simp only [List.length_append, List.length_cons, List.length_nil, htagl, hndl, hdimsl]
      omega
    rw [hpos5] at h5
    have hb1m : d0.get_key ∈ DmapType.all_keys := by
      have h0 := contains_get_key d0
      simpa using h0
    have hs1 : shapeOf (DmapType.STRING name) = DmapType.STRING [] := rfl
    have hs2 : shapeOf (DmapType.CHAR d0.get_key) = DmapType.CHAR 0 := rfl
    have hs3 : shapeOf (DmapType.INT ((dims.length : Nat) : Int)) = DmapType.INT 0 := rfl
    rw [hwrapnd] at h1 h2 h4 h5
    simp [hsb, hs1, hs2, hs3, List.append_assoc, List.singleton_append, List.cons_append,
      List.nil_append, Nat.add_assoc, htagl, hndl, hdimsl] at h1 h2 h3 h4 h5
    simp [parse_arrayN, List.append_assoc, List.singleton_append, List.cons_append,
      List.nil_append, Nat.add_assoc, htagl, hndl, hdimsl, h1, h2, h3, hb1m, hb2, hwrapnd,
      hc1, hc2, htoNat, h4, hc3, get_num_bytes_shapeOf, hwrappw, hc4, htoNat2, h5] <;> omega

/-- The array-entry loop parses a concatenated run of encoded array entries. -/
theorem parse_arrays_loopN_ok (nested : NestedFn) (record_size : Int)
    (hrsB : record_size < 2147483648) :
    ∀ (names : List (List Nat)) (m : Smap RawDmapArray) (eb : List Nat)
      (pre rest : List Nat) (lst0 : List (List Nat)) (mp0 : Smap RawDmapArray),
      encArrayEntries m names = .ok eb →
      (∀ n ∈ names, goodName n = true ∧
          ∃ a, m.lookup n = some a ∧ goodArray a = true) →
      ((eb.length : Nat) : Int) ≤ record_size →
      ∃ mpF,
        parse_arrays_loopN nested (pre ++ (eb ++ rest)) record_size
            names.length pre.length lst0 mp0 =
          .ok ((lst0 ++ names, mpF), pre.length + eb.length) ∧
        (∀ n, n ∈ names → mpF.lookup n = m.lookup n) ∧
        (∀ n, ¬ n ∈ names → mpF.lookup n = mp0.lookup n) := by
  intro names
  induction names with
  | nil =>
    intro m eb pre rest lst0 mp0 henc _ _
    have heb : eb = [] := by
      simp only [encArrayEntries, PRes.ok.injEq] at henc
      exact henc.symm
    subst heb
    refine ⟨mp0, ?_, by simp, fun n _ => rfl⟩
    simp [parse_arrays_loopN]
  | cons n ns ih =>
    intro m eb pre rest lst0 mp0 henc hgood hbound
    obtain ⟨hn, a, hls, hga⟩ :
        goodName n = true ∧ ∃ a, m.lookup n = some a ∧ goodArray a = true := by
      obtain ⟨h1, h2⟩ := hgood n (by simp)
      exact ⟨h1, h2⟩
    simp only [encArrayEntries] at henc
    simp only [hls] at henc
    cases hab : a.to_bytes with
    | ok ab =>
      rw [hab] at henc
      cases hrec : encArrayEntries m ns with
      | ok bs =>
        rw [hrec] at henc
        simp only [PRes.ok.injEq] at henc
        subst henc
        have hablen : ((ab.length : Nat) : Int) ≤ record_size := by
          have h0 : ab.length ≤ (n ++ [0] ++ ab ++ bs).length := by simp; omega
          have h1 : ((ab.length : Nat) : Int) ≤ (((n ++ [0] ++ ab ++ bs).length : Nat) : Int) := by
            exact_mod_cast h0
          omega
        have hbslen : ((bs.length : Nat) : Int) ≤ record_size := by
          have h0 : bs.length ≤ (n ++ [0] ++ ab ++ bs).length := by simp; omega
          have h1 : ((bs.length : Nat) : Int) ≤ (((n ++ [0] ++ ab ++ bs).length : Nat) : Int) := by
            exact_mod_cast h0
          omega
        have hstep := parse_arrayN_ok nested pre (bs ++ rest) n a record_size ab
          hn hga hab hablen hrsB
        have hIH := ih m bs (pre ++ (n ++ [0] ++ ab)) rest (lst0 ++ [n])
          (mp0.insert n a) hrec (fun x hx => hgood x (by simp [hx])) hbslen
        obtain ⟨mpF, hloop, hin, hout⟩ := hIH
        refine ⟨mpF, ?_, ?_, ?_⟩
        · simp only [List.length_cons, parse_arrays_loopN]
          have hB : pre ++ ((n ++ [0] ++ ab ++ bs) ++ rest) =
              pre ++ ((n ++ [0] ++ ab) ++ (bs ++ rest)) := by
            simp [List.append_assoc]
          rw [hB, hstep]
          have hB2 : pre ++ ((n ++ [0] ++ ab) ++ (bs ++ rest)) =
              (pre ++ (n ++ [0] ++ ab)) ++ (bs ++ rest) := by
            simp [List.append_assoc]
          have hpos : pre.length + (n.length + 1 + ab.length) =
              (pre ++ (n ++ [0] ++ ab)).length := by
            simp
            omega
          rw [hpos, hB2]
          simp only [List.append_assoc, List.singleton_append, List.cons_append,
            List.nil_append, List.length_append, List.length_cons, List.length_nil]
            at hloop ⊢
          rw [hloop]
          simp only [PRes.ok.injEq, Prod.mk.injEq, and_true, true_and, and_self]
          omega
        · intro x hx
          rcases List.mem_cons.mp hx with hx1 | hx2
          · subst hx1
            by_cases hxin : x ∈ ns
            · exact hin x hxin
            · rw [hout x hxin, Smap.lookup_insert_self, hls]
          · exact hin x hx2
        · intro x hx
          have hx1 : ¬ x = n := fun he => hx (by simp [he])
          have hx2 : ¬ x ∈ ns := fun he => hx (by simp [he])
          rw [hout x hx2, Smap.lookup_insert_ne mp0 n x a hx1]
      | err e => rw [hrec] at henc; exact absurd henc (by simp)
      | crash c => rw [hrec] at henc; exact absurd henc (by simp)
      | nofuel => rw [hrec] at henc; exact absurd henc (by simp)
    | err e => rw [hab] at henc; exact absurd henc (by simp)
    | crash c => rw [hab] at henc; exact absurd henc (by simp)
    | nofuel => rw [hab] at henc; exact absurd henc (by simp)

/-! Entry-length lower bounds (each encoded entry takes at least 2 bytes). -/

theorem scalar_to_bytes_len_ge (s : RawDmapScalar) : 1 ≤ s.to_bytes.length := by
  simp [RawDmapScalar.to_bytes, DmapType.to_bytes, leBytes_length]

theorem encScalarEntries_len_ge (m : Smap RawDmapScalar) :
    ∀ (names : List (List Nat)) (sb : List Nat),
      encScalarEntries m names = .ok sb → 2 * names.length ≤ sb.length := by
  intro names
  induction names with
  | nil =>
    intro sb h
    simp only [encScalarEntries, PRes.ok.injEq] at h
    simp [← h]
  | cons n ns ih =>
    intro sb h
    simp only [encScalarEntries] at h
    cases hls : m.lookup n with
    | none => rw [hls] at h; exact absurd h (by simp)
    | some s =>
      rw [hls] at h
      cases hrec : encScalarEntries m ns with
      | ok bs =>
        rw [hrec] at h
        simp only [PRes.ok.injEq] at h
        have h1 := ih bs hrec
        have h2 := scalar_to_bytes_len_ge s
        rw [← h]
        simp only [List.length_append, List.length_cons, List.length_nil]
        omega
      | err e => rw [hrec] at h; exact absurd h (by simp)
      | crash c => rw [hrec] at h; exact absurd h (by simp)
      | nofuel => rw [hrec] at h; exact absurd h (by simp)

theorem array_to_bytes_len_ge (a : RawDmapArray) (ab : List Nat)
    (h : a.to_bytes = .ok ab) : 1 ≤ ab.length := by
  cases hd : a.data with
  | nil => simp [RawDmapArray.to_bytes, hd] at h
  | cons d0 ds =>
    simp only [RawDmapArray.to_bytes, hd, PRes.ok.injEq] at h
    rw [← h]
    simp [DmapType.to_bytes, leBytes_length]

theorem encArrayEntries_len_ge (m : Smap RawDmapArray) :
    ∀ (names : List (List Nat)) (ab : List Nat),
      encArrayEntries m names = .ok ab → 2 * names.length ≤ ab.length := by
  intro names
  induction names with
  | nil =>
    intro ab h
    simp only [encArrayEntries, PRes.ok.injEq] at h
    simp [← h]
  | cons n ns ih =>
    intro ab h
    simp only [encArrayEntries] at h
    cases hls : m.lookup n with
    | none => rw [hls] at h; exact absurd h (by simp)
    | some a =>
      rw [hls] at h
      simp only at h
      cases hab : a.to_bytes with
      | ok eb =>
        rw [hab] at h
        cases hrec : encArrayEntries m ns with
        | ok bs =>
          rw [hrec] at h
          simp only [PRes.ok.injEq] at h
          have h1 := ih bs hrec
          have h2 := array_to_bytes_len_ge a eb hab
          rw [← h]
          simp only [List.length_append, List.length_cons, List.length_nil]
          omega
        | err e => rw [hrec] at h; exact absurd h (by simp)
        | crash c => rw [hrec] at h; exact absurd h (by simp)
        | nofuel => rw [hrec] at h; exact absurd h (by simp)
      | err e => rw [hab] at h; exact absurd h (by simp)
      | crash c => rw [hab] at h; exact absurd h (by simp)
      | nofuel => rw [hab] at h; exact absurd h (by simp)

/-! Reflexivity of the `PartialEq` functions on good values. -/

theorem zip_self {α : Type} (l : List α) : List.zip l l = l.map (fun x => (x, x)) := by
  induction l with
  | nil => rfl
  | cons x t ih => simp [List.zip_cons_cons, ih]

theorem zip_all_self {α : Type} (f : α → α → Bool) :
    ∀ l : List α, (∀ x ∈ l, f x x = true) →
      (List.zip l l).all (fun p => f p.1 p.2) = true := by
  intro l
  induction l with
  | nil => intro h; rfl
  | cons x t ih =>
    intro h
    simp only [List.zip_cons_cons, List.all_cons, Bool.and_eq_true]
    exact ⟨h x (by simp), ih (fun y hy => h y (by simp [hy]))⟩

theorem dmapTypeEq_refl_of_good (d : DmapType) (h : goodVal d = true) :
    dmapTypeEq d d = true := by
  cases d with
  | FLOAT b =>
    simp only [goodVal, Bool.and_eq_true, Bool.not_eq_true'] at h
    simp [dmapTypeEq, floatEq32, h.2]
  | DOUBLE b =>
    simp only [goodVal, Bool.and_eq_true, Bool.not_eq_true'] at h
    simp [dmapTypeEq, floatEq64, h.2]
  | DMAP => simp [goodVal] at h
  | LONG x => simp [goodVal] at h
  | USHORT x => simp [goodVal] at h
  | UINT x => simp [goodVal] at h
  | ULONG x => simp [goodVal] at h
  | CHAR x => simp [dmapTypeEq]
  | SHORT x => simp [dmapTypeEq]
  | INT x => simp [dmapTypeEq]
  | STRING s => simp [dmapTypeEq]
  | UCHAR x => simp [dmapTypeEq]

theorem scalarEq_refl_of_good (s : RawDmapScalar) (h : goodScalar s = true) :
    scalarEq s s = true := by
  simp only [goodScalar, Bool.and_eq_true, beq_iff_eq] at h
  simp [scalarEq, dmapTypeEq_refl_of_good s.data h.2]

theorem arrayEq_refl_of_good (a : RawDmapArray) (h : goodArray a = true) :
    arrayEq a a = true := by
  obtain ⟨mode, dims, data⟩ := a
  simp only [goodArray, Bool.and_eq_true, beq_iff_eq, List.all_eq_true,
    decide_eq_true_eq] at h
  obtain ⟨⟨⟨⟨hm, _⟩, _⟩, hmatch⟩, _⟩ := h
  cases data with
  | nil => simp at hmatch
  | cons d0 ds =>
    simp only [List.all_eq_true, Bool.and_eq_true, beq_iff_eq] at hmatch
    simp only [arrayEq, Bool.and_eq_true]
    refine ⟨⟨by simp, ?_⟩, ?_⟩
    · exact zip_all_self (fun a b => a == b) dims (fun x _ => by simp)
    · exact zip_all_self dmapTypeEq (d0 :: ds)
        (fun x hx => dmapTypeEq_refl_of_good x (hmatch x hx).1)

/-- `read_dataN_ok` with the buffer, position, result position and shape
supplied as separate equations, so the conclusion comes out in any desired
syntactic form. -/
theorem read_dataN_ok_at (nested : NestedFn) (pre post buf : List Nat) (v s : DmapType)
    (p q : Nat) (h : goodVal v = true) (hbuf : pre ++ (v.to_bytes ++ post) = buf)
    (hp : pre.length = p) (hq : p + v.to_bytes.length = q) (hs : shapeOf v = s) :
    read_dataN nested buf p s = .ok (v, q) := by
  subst hp
  subst hbuf hq hs
  exact read_dataN_ok nested pre post v h

/-- `read_dataN_ok` for a read at position 0. -/
theorem read_dataN_ok_at0 (nested : NestedFn) (post buf : List Nat) (v s : DmapType)
    (q : Nat) (h : goodVal v = true) (hbuf : v.to_bytes ++ post = buf)
    (hq : v.to_bytes.length = q) (hs : shapeOf v = s) :
    read_dataN nested buf 0 s = .ok (v, q) := by
  subst hbuf hq hs
  have h0 := read_dataN_ok nested [] post v h
  simpa using h0

/-- `parse_scalars_loopN_ok` with buffer, count and positions supplied as
separate equations. -/
theorem parse_scalars_loopN_ok_at (nested : NestedFn) (names : List (List Nat))
    (m : Smap RawDmapScalar) (eb pre rest buf : List Nat) (mp0 : Smap RawDmapScalar)
    (cnt p q : Nat)
    (henc : encScalarEntries m names = .ok eb)
    (hgood : ∀ n ∈ names, goodName n = true ∧
      ∃ s, m.lookup n = some s ∧ goodScalar s = true)
    (hbuf : pre ++ (eb ++ rest) = buf) (hcnt : names.length = cnt)
    (hp : pre.length = p) (hq : p + eb.length = q) :
    ∃ mpF, parse_scalars_loopN nested buf cnt p [] mp0 = .ok ((names, mpF), q) ∧
      (∀ n, n ∈ names → mpF.lookup n = m.lookup n) ∧
      (∀ n, ¬ n ∈ names → mpF.lookup n = mp0.lookup n) := by
  subst hp
  subst hbuf hcnt hq
  obtain ⟨mpF, h1, h2, h3⟩ :=
    parse_scalars_loopN_ok nested names m eb pre rest [] mp0 henc hgood
  exact ⟨mpF, by simpa using h1, h2, h3⟩

/-- `parse_arrays_loopN_ok` with buffer, count and positions supplied as
separate equations. -/
theorem parse_arrays_loopN_ok_at (nested : NestedFn) (record_size : Int)
    (hrsB : record_size < 2147483648) (names : List (List Nat))
    (m : Smap RawDmapArray) (eb pre rest buf : List Nat) (mp0 : Smap RawDmapArray)
    (cnt p q : Nat)
    (henc : encArrayEntries m names = .ok eb)
    (hgood : ∀ n ∈ names, goodName n = true ∧
      ∃ a, m.lookup n = some a ∧ goodArray a = true)
    (hle : ((eb.length : Nat) : Int) ≤ record_size)
    (hbuf : pre ++ (eb ++ rest) = buf) (hcnt : names.length = cnt)
    (hp : pre.length = p) (hq : p + eb.length = q) :
    ∃ mpF, parse_arrays_loopN nested buf record_size cnt p [] mp0 =
        .ok ((names, mpF), q) ∧
      (∀ n, n ∈ names → mpF.lookup n = m.lookup n) ∧
      (∀ n, ¬ n ∈ names → mpF.lookup n = mp0.lookup n) := by
  subst hp
  subst hbuf hcnt hq
  obtain ⟨mpF, h1, h2, h3⟩ :=
    parse_arrays_loopN_ok nested record_size hrsB names m eb pre rest [] mp0 henc hgood hle
  exact ⟨mpF, by simpa using h1, h2, h3⟩

/-- Characterisation of a successful `parse_recordN` run in terms of the
outcomes of its sub-parsers and integrity checks. -/
theorem parse_recordN_eq_ok {nested : NestedFn} {stream : List Nat} {pos : Nat}
    {c size nS nA : Int} {p1 p2 p3 p4 p5 p6 : Nat}
    {slist alist : List (List Nat)} {mpS : Smap RawDmapScalar} {mpA : Smap RawDmapArray}
    (h1 : read_dataN nested stream pos (.INT 0) = .ok (.INT c, p1))
    (h2 : read_dataN nested stream p1 (.INT 0) = .ok (.INT size, p2))
    (hA : ¬ (toUnsigned 64 size > stream.length - p2 + 2 * (DmapType.INT 0).get_num_bytes))
    (hB : ¬ (size ≤ 0))
    (h3 : read_dataN nested stream p2 (.INT 0) = .ok (.INT nS, p3))
    (h4 : read_dataN nested stream p3 (.INT 0) = .ok (.INT nA, p4))
    (hC : ¬ (nS ≤ 0)) (hD : ¬ (nA ≤ 0))
    (hE : ¬ (wrap32 (nS + nA) > size))
    (h5 : parse_scalars_loopN nested stream nS.toNat p4 [] Smap.empty =
      .ok ((slist, mpS), p5))
    (h6 : parse_arrays_loopN nested stream size nA.toNat p5 [] Smap.empty =
      .ok ((alist, mpA), p6))
    (hF : p6 - pos = toUnsigned 64 size) :
    parse_recordN nested stream pos = .ok (⟨nS, nA, slist, alist, mpS, mpA⟩, p6) := by
  simp [parse_recordN, h1, h2, h3, h4, h5, h6, hA, hB, hC, hD, hE, hF]

/-- Decoding an encodable record's wire image succeeds, consumes the whole
image, and produces a record equal to the original under the hand-written
`PartialEq`. -/
theorem parse_recordN_roundtrip (nested : NestedFn) (r : RawDmapRecord) (bs : List Nat)
    (hr : encodable r = true) (henc : r.to_bytes = .ok bs)
    (hlen : bs.length < 2147483648) :
    ∃ r', parse_recordN nested bs 0 = .ok (r', bs.length) ∧ recordEq r r' = true := by
  -- unpack the well-formedness conjunction
  simp only [encodable, Bool.and_eq_true, beq_iff_eq, List.all_eq_true,
    decide_eq_true_eq] at hr
  obtain ⟨⟨⟨⟨⟨⟨⟨hnumS, hnumA⟩, hsizeS⟩, hsizeA⟩, honeS⟩, honeA⟩, hallS⟩, hallA⟩ := hr
  have hgoodS : ∀ n ∈ r.scalar_list, goodName n = true ∧
      ∃ s, r.scalars.lookup n = some s ∧ goodScalar s = true := by
    intro n hn
    obtain ⟨h1, h2⟩ := hallS n hn
    refine ⟨h1, ?_⟩
    cases hls : r.scalars.lookup n with
    | none => rw [hls] at h2; exact absurd h2 (by simp)
    | some s => rw [hls] at h2; exact ⟨s, rfl, h2⟩
  have hgoodA : ∀ n ∈ r.array_list, goodName n = true ∧
      ∃ a, r.arrays.lookup n = some a ∧ goodArray a = true := by
    intro n hn
    obtain ⟨h1, h2⟩ := hallA n hn
    refine ⟨h1, ?_⟩
    cases hls : r.arrays.lookup n with
    | none => rw [hls] at h2; exact absurd h2 (by simp)
    | some a => rw [hls] at h2; exact ⟨a, rfl, h2⟩
  -- unpack the encoder
  simp only [RawDmapRecord.to_bytes] at henc
  cases hsb : encScalarEntries r.scalars r.scalar_list with
  | err e => rw [hsb] at henc; exact absurd henc (by simp)
  | crash c => rw [hsb] at henc; exact absurd henc (by simp)
  | nofuel => rw [hsb] at henc; exact absurd henc (by simp)
  | ok sb =>
    rw [hsb] at henc
    cases hab : encArrayEntries r.arrays r.array_list with
    | err e => rw [hab] at henc; exact absurd henc (by simp)
    | crash c => rw [hab] at henc; exact absurd henc (by simp)
    | nofuel => rw [hab] at henc; exact absurd henc (by simp)
    | ok ab =>
      rw [hab] at henc
      simp only [PRes.ok.injEq] at henc
      have hndl : ∀ z : Int, ((DmapType.INT z).to_bytes).length = 4 := by
        intro z; simp [DmapType.to_bytes, leBytes_length]
      have hbslen : bs.length = 16 + (sb.length + ab.length) := by
        rw [← henc]
        simp only [List.length_append, hndl]
        try omega
      have hD31 : sb.length + ab.length + 16 < 2147483648 := by omega
      have hwrap1 : wrap32 (((sb ++ ab).length : Nat) : Int) = (((sb ++ ab).length : Nat) : Int) := by
        apply wrap32_eq_self
        · omega
        · simp only [List.length_append]
          push_cast
          omega
      have hwrap2 : wrap32 ((((sb ++ ab).length : Nat) : Int) + 16) =
          (((sb ++ ab).length : Nat) : Int) + 16 := by
        apply wrap32_eq_self
        · omega
        · simp only [List.length_append]
          push_cast
          omega
      rw [hwrap1, hwrap2] at henc
      -- count bounds
      have hcntS := encScalarEntries_len_ge r.scalars r.scalar_list sb hsb
      have hcntA := encArrayEntries_len_ge r.arrays r.array_list ab hab
      have hnsr : -2147483648 ≤ r.num_scalars ∧ r.num_scalars < 2147483648 := by
        rw [hnumS]
        constructor
        · omega
        · push_cast
          omega
      have hnar : -2147483648 ≤ r.num_arrays ∧ r.num_arrays < 2147483648 := by
        rw [hnumA]
        constructor
        · omega
        · push_cast
          omega
      -- arithmetic facts for the integrity checks
      have hu64 : toUnsigned 64 (((sb.length + ab.length : Nat) : Int) + 16) =
          sb.length + ab.length + 16 := by
        have h0 := toUnsigned_of_nonneg 64 (((sb.length + ab.length : Nat) : Int) + 16)
          (by positivity)
          (by
            push_cast
            norm_num
            omega)
        exact_mod_cast h0
      have hnsp : ¬ (r.num_scalars ≤ 0) := by omega
      have hnap : ¬ (r.num_arrays ≤ 0) := by omega
      have hwrapcnt : wrap32 (r.num_scalars + r.num_arrays) =
          r.num_scalars + r.num_arrays := by
        apply wrap32_eq_self
        · omega
        · rw [hnumS, hnumA]
          push_cast
          omega
      have htoNatS : r.num_scalars.toNat = r.scalar_list.length := by
        rw [hnumS]
        simp
      have htoNatA : r.num_arrays.toNat = r.array_list.length := by
        rw [hnumA]
        simp
      have hgnb : (DmapType.INT 0).get_num_bytes = 4 := rfl
      -- the four header reads, stated directly in their final forms
      have hc1 : read_dataN nested bs 0 (DmapType.INT 0) = .ok (.INT 65537, 4) :=
        read_dataN_ok_at0 nested
          ((DmapType.INT (((sb.length + ab.length : Nat) : Int) + 16)).to_bytes ++
            ((DmapType.INT r.num_scalars).to_bytes ++
              ((DmapType.INT r.num_arrays).to_bytes ++ (sb ++ ab))))
          bs (.INT 65537) (.INT 0) 4
          (by simp [goodVal])
          (by rw [← henc]; simp [List.append_assoc])
          (hndl 65537) rfl
      have hc2 : read_dataN nested bs 4 (DmapType.INT 0) =
          .ok (.INT (((sb.length + ab.length : Nat) : Int) + 16), 8) :=
        read_dataN_ok_at nested ((DmapType.INT 65537).to_bytes)
          ((DmapType.INT r.num_scalars).to_bytes ++
            ((DmapType.INT r.num_arrays).to_bytes ++ (sb ++ ab)))
          bs (.INT (((sb.length + ab.length : Nat) : Int) + 16)) (.INT 0) 4 8
          (by
            simp only [goodVal, Bool.and_eq_true, decide_eq_true_eq]
            push_cast
            omega)
          (by rw [← henc]; simp [List.append_assoc])
          (by simp [hndl]) (by simp [hndl]) rfl
      have hc3 : read_dataN nested bs 8 (DmapType.INT 0) = .ok (.INT r.num_scalars, 12) :=
        read_dataN_ok_at nested
          ((DmapType.INT 65537).to_bytes ++
            (DmapType.INT (((sb.length + ab.length : Nat) : Int) + 16)).to_bytes)
          ((DmapType.INT r.num_arrays).to_bytes ++ (sb ++ ab))
          bs (.INT r.num_scalars) (.INT 0) 8 12
          (by
            simp only [goodVal, Bool.and_eq_true, decide_eq_true_eq]
            exact hnsr)
          (by rw [← henc]; simp [List.append_assoc])
          (by simp [hndl]) (by simp [hndl]) rfl
      have hc4 : read_dataN nested bs 12 (DmapType.INT 0) = .ok (.INT r.num_arrays, 16) :=
        read_dataN_ok_at nested
          (((DmapType.INT 65537).to_bytes ++
            (DmapType.INT (((sb.length + ab.length : Nat) : Int) + 16)).to_bytes) ++
            (DmapType.INT r.num_scalars).to_bytes)
          (sb ++ ab)
          bs (.INT r.num_arrays) (.INT 0) 12 16
          (by
            simp only [goodVal, Bool.and_eq_true, decide_eq_true_eq]
            exact hnar)
          (by rw [← henc]; simp [List.append_assoc])
          (by simp [hndl]) (by simp [hndl]) rfl
      -- the two entry loops, stated directly in their final forms
      obtain ⟨mpS, hloopS, hinS, _⟩ :=
        parse_scalars_loopN_ok_at nested r.scalar_list r.scalars sb
          ((((DmapType.INT 65537).to_bytes ++
            (DmapType.INT (((sb.length + ab.length : Nat) : Int) + 16)).to_bytes) ++
            (DmapType.INT r.num_scalars).to_bytes) ++ (DmapType.INT r.num_arrays).to_bytes)
          ab bs Smap.empty r.num_scalars.toNat 16 (16 + sb.length)
          hsb hgoodS
          (by rw [← henc]; simp [List.append_assoc])
          htoNatS.symm (by simp [hndl]) rfl
      obtain ⟨mpA, hloopA, hinA, _⟩ :=
        parse_arrays_loopN_ok_at nested (((sb.length + ab.length : Nat) : Int) + 16)
          (by push_cast; omega)
          r.array_list r.arrays ab
          (((((DmapType.INT 65537).to_bytes ++
            (DmapType.INT (((sb.length + ab.length : Nat) : Int) + 16)).to_bytes) ++
            (DmapType.INT r.num_scalars).to_bytes) ++
            (DmapType.INT r.num_arrays).to_bytes) ++ sb)
          [] bs Smap.empty r.num_arrays.toNat (16 + sb.length) bs.length
          hab hgoodA
          (by push_cast; omega)
          (by rw [← henc]; simp [List.append_assoc])
          htoNatA.symm (by simp [hndl]; omega) (by omega)
      -- the integrity checks, stated directly in their final forms
      have hAx : ¬ (toUnsigned 64 (((sb.length + ab.length : Nat) : Int) + 16) >
          bs.length - 8 + 2 * (DmapType.INT 0).get_num_bytes) := by
        rw [hu64, hgnb]
        omega
      have hBx : ¬ ((((sb.length + ab.length : Nat) : Int)) + 16 ≤ 0) := by
        push_cast
        omega
      have hEx : ¬ (wrap32 (r.num_scalars + r.num_arrays) >
          (((sb.length + ab.length : Nat) : Int)) + 16) := by
        rw [hwrapcnt, hnumS, hnumA]
        push_cast
        omega
      have hFx : bs.length - 0 = toUnsigned 64 (((sb.length + ab.length : Nat) : Int) + 16) := by
        rw [hu64]
        omega
      have hmain := parse_recordN_eq_ok hc1 hc2 hAx hBx hc3 hc4 hnsp hnap hEx hloopS hloopA hFx
      refine ⟨_, hmain, ?_⟩
      simp only [recordEq, beq_self_eq_true, Bool.and_self, Bool.not_true,
        Bool.false_eq_true, if_false, Bool.and_eq_true]
      constructor
      · refine zip_all_self
          (fun n1 n2 => n1 == n2 && optEq scalarEq (r.scalars.lookup n1) (mpS.lookup n2))
          r.scalar_list ?_
        intro n hn
        obtain ⟨s, hls, hgs⟩ := (hgoodS n hn).2
        simp only [hinS n hn, hls, optEq, Bool.and_eq_true, beq_self_eq_true, true_and]
        exact scalarEq_refl_of_good s hgs
      · refine zip_all_self
          (fun n1 n2 => n1 == n2 && optEq arrayEq (r.arrays.lookup n1) (mpA.lookup n2))
          r.array_list ?_
        intro n hn
        obtain ⟨a, hls, hga⟩ := (hgoodA n hn).2
        simp only [hinA n hn, hls, optEq, Bool.and_eq_true, beq_self_eq_true, true_and]
        exact arrayEq_refl_of_good a hga


/-! ## Claim theorems -/

set_option maxRecDepth 1000000 in
/-- C8: `RawDmapRecord::to_bytes` emits the header (code 65537, total size,
scalar count, array count) followed by the scalar and array entries in
order; the scenario-5 record encodes to exactly the 39-byte sequence given
in the spec, and decoding that sequence reproduces the original record. -/
theorem C8_scenario5_bytes :
    rec5.to_bytes = .ok bytes39 ∧ read_records 1 bytes39 = .ok [rec5] :=
  ⟨by decide, by decide⟩

set_option maxRecDepth 1000000 in
/-- C2 (refuted — code bug): decoding is *not* panic-free on arbitrary
buffers: on this 16-byte buffer (header promising one scalar, nothing
after it) the name scan of `parse_scalar` indexes `stream[position]` with
the cursor exactly at the end of the buffer, an out-of-bounds panic in the
source (`dmap.rs` `read_data`'s STRING branch first access). -/
theorem C2_truncation_panics :
    read_records 1 c2buf = .crash .indexOOB := by decide

/-- C10: encoding an array entry whose element vector is empty panics:
`RawDmapArray::to_bytes` derives the wire tag by indexing `data[0]`, both
directly and through `RawDmapRecord::to_bytes` of a record containing such
an array. -/
theorem C10_empty_array_encode_panics :
    (⟨7, [3], []⟩ : RawDmapArray).to_bytes = .crash .indexOOB ∧
    c10rec.to_bytes = .crash .indexOOB :=
  ⟨by decide, by decide⟩

set_option maxRecDepth 1000000 in
/-- C1 counterexample: `c1rec` satisfies the §3 structural invariants
(counts equal list lengths and map sizes, every listed name mapped, no
arrays so homogeneity is vacuous), encodes successfully, yet decoding the
encoding fails (the decoder rejects records with zero arrays), refuting
`decodeAll(encodeAll(record)) == [record]` as stated. -/
theorem C1_counterexample :
    (c1rec.num_scalars = (c1rec.scalar_list.length : Int) ∧
     c1rec.scalars.size = c1rec.scalar_list.length ∧
     c1rec.num_arrays = (c1rec.array_list.length : Int) ∧
     c1rec.arrays.size = c1rec.array_list.length ∧
     (∀ n ∈ c1rec.scalar_list, (c1rec.scalars.lookup n).isSome = true) ∧
     (∀ n ∈ c1rec.array_list, (c1rec.arrays.lookup n).isSome = true)) ∧
    c1rec.to_bytes = .ok c1bytes ∧
    read_records 1 c1bytes = .err (.Message .parseRecordNumArraysNonPositive) :=
  ⟨by decide, by decide, by decide⟩

set_option maxRecDepth 1000000 in
/-- C4 counterexample: a successfully decoded buffer with two identically
named scalars yields a record whose `scalar_list` has two entries but whose
`scalars` map has only one, refuting `scalar_count == scalar_order.length
== scalars.size` for every successful parse. -/
theorem C4_counterexample :
    parse_record 1 c4buf 0 = .ok (c4rec, c4buf.length) ∧
    c4rec.num_scalars = (c4rec.scalar_list.length : Int) ∧
    c4rec.scalar_list.length = 2 ∧
    c4rec.scalars.size = 1 :=
  ⟨by decide, by decide, by decide, by decide⟩

set_option maxRecDepth 1000000 in
/-- C6 counterexample: a buffer whose single array declares 31 dimensions
of 2 decodes successfully even though the true dimension product is
`2^31 = 2147483648`, vastly larger than the declared record size 151: the
guard is computed in wrapping `i32` arithmetic (`2^31` wraps to
`-2^31 ≤ 151`), refuting the claim that the product bound is enforced for
every dimension vector. -/
theorem C6_counterexample :
    read_records 1 c6buf = .ok [c6rec] ∧
    c6buf.length = 151 ∧
    (match c6rec.arrays.lookup [98] with
     | some a => prodInt a.dimensions
     | none => 0) = 2147483648 :=
  ⟨by decide, by decide, by decide⟩

/-- C3 counterexample: a record extended by one trailing scalar (with
`num_scalars` updated, as any honestly built record would be) does *not*
compare equal to the original: record equality first compares the count
fields exactly and only then the zipped common prefix, refuting the claim
that equality is decided purely over the common prefix. -/
theorem C3_counterexample :
    c3recExt.scalar_list = c3rec.scalar_list ++ [[116]] ∧
    c3recExt.num_scalars = c3rec.num_scalars + 1 ∧
    (∀ n ∈ c3rec.scalar_list, c3recExt.scalars.lookup n = c3rec.scalars.lookup n) ∧
    recordEq c3rec c3rec = true ∧
    recordEq c3recExt c3recExt = true ∧
    recordEq c3rec c3recExt = false :=
  ⟨by decide, by decide, by decide, by decide, by decide, by decide⟩


/-- C1 (amended): for every *encodable* record — well-formed per §3 and
additionally within the decoder's acceptance envelope (at least one scalar
and one array, no unparseable value variants, in-range values, NUL-free
UTF-8 names) — encoding and then decoding yields one record equal to the
original under the hand-written `PartialEq`. -/
theorem C1_roundtrip (r : RawDmapRecord) (bs : List Nat)
    (hr : encodable r = true) (henc : r.to_bytes = .ok bs)
    (hlen : bs.length < 2147483648) :
    ∃ r', read_records 1 bs = .ok [r'] ∧ recordEq r r' = true := by
  obtain ⟨r', hp, he⟩ := parse_recordN_roundtrip (fun _ _ => .nofuel) r bs hr henc hlen
  have hpos : 0 < bs.length := by
    by_contra h0
    push_neg at h0
    have hnil : bs = [] := List.eq_nil_of_length_eq_zero (by omega)
    rw [hnil] at hp
    have hev : parse_recordN (fun _ _ => PRes.nofuel) ([] : List Nat) 0 =
        .err (.Message .readDataNotAligned) := by decide
    rw [hev] at hp
    exact absurd hp (by simp)
  have hp0 : parse_record 0 bs 0 = .ok (r', bs.length) := hp
  refine ⟨r', ?_, he⟩
  simp [read_records, read_records_loop, hp0, hpos]

set_option maxRecDepth 1000000 in
/-- Witness for C1: the amended round trip at the scenario-5 record. -/
theorem C1_roundtrip_witness :
    ∃ r', read_records 1 bytes39 = .ok [r'] ∧ recordEq rec5 r' = true :=
  C1_roundtrip rec5 bytes39 (by decide) (by decide) (by decide)


/-- C5: `parse_record` enforces the size field in both directions: a
declared size exceeding the remaining buffer bytes plus 8 fails with the
size-exceeds error before any entry is read, and after the two entry loops
a consumed-byte count differing from the declared size (in either
direction) fails with the size-mismatch error. -/
theorem C5_size_enforcement (nested : NestedFn) (stream : List Nat) (pos : Nat) :
    (∀ (c size : Int) (p1 p2 : Nat),
      read_dataN nested stream pos (.INT 0) = .ok (.INT c, p1) →
      read_dataN nested stream p1 (.INT 0) = .ok (.INT size, p2) →
      toUnsigned 64 size > stream.length - p2 + 2 * (DmapType.INT 0).get_num_bytes →
      parse_recordN nested stream pos = .err (.Message .parseRecordSizeExceedsBuffer)) ∧
    (∀ (c size nS nA : Int) (p1 p2 p3 p4 p5 p6 : Nat)
       (slist alist : List (List Nat)) (mpS : Smap RawDmapScalar) (mpA : Smap RawDmapArray),
      read_dataN nested stream pos (.INT 0) = .ok (.INT c, p1) →
      read_dataN nested stream p1 (.INT 0) = .ok (.INT size, p2) →
      ¬ (toUnsigned 64 size > stream.length - p2 + 2 * (DmapType.INT 0).get_num_bytes) →
      ¬ (size ≤ 0) →
      read_dataN nested stream p2 (.INT 0) = .ok (.INT nS, p3) →
      read_dataN nested stream p3 (.INT 0) = .ok (.INT nA, p4) →
      ¬ (nS ≤ 0) → ¬ (nA ≤ 0) → ¬ (wrap32 (nS + nA) > size) →
      parse_scalars_loopN nested stream nS.toNat p4 [] Smap.empty = .ok ((slist, mpS), p5) →
      parse_arrays_loopN nested stream size nA.toNat p5 [] Smap.empty = .ok ((alist, mpA), p6) →
      p6 - pos ≠ toUnsigned 64 size →
      parse_recordN nested stream pos =
        .err (.Message (.parseRecordSizeMismatch (p6 - pos) size))) := by
  constructor
  · intro c size p1 p2 h1 h2 hbig
    simp [parse_recordN, h1, h2, hbig]
  · intro c size nS nA p1 p2 p3 p4 p5 p6 slist alist mpS mpA
      h1 h2 hsz hpos hc3 hc4 hns hna hcnt hls hla hne
    simp [parse_recordN, h1, h2, hsz, hpos, hc3, hc4, hns, hna, hcnt, hls, hla, hne]

set_option maxRecDepth 1000000 in
/-- Witness for C5: both directions at concrete buffers — `c5bufBig`
declares size 100 on a 39-byte buffer, `c5bufOff` declares size 40 while
its entries consume 39 bytes. -/
theorem C5_size_enforcement_witness :
    parse_record 1 c5bufBig 0 = .err (.Message .parseRecordSizeExceedsBuffer) ∧
    parse_record 1 c5bufOff 0 = .err (.Message (.parseRecordSizeMismatch (39 - 0) 40)) :=
  ⟨(C5_size_enforcement (nestedAt 1) c5bufBig 0).1 65537 100 4 8
      (by decide) (by decide) (by decide),
   (C5_size_enforcement (nestedAt 1) c5bufOff 0).2 65537 40 1 1 4 8 12 16 23 39
      [[115, 99, 97, 108]] [[97, 114, 114]]
      [([115, 99, 97, 108], ⟨.CHAR 10, 6⟩)] [([97, 114, 114], ⟨7, [3], [.CHAR 0, .CHAR 1, .CHAR 2]⟩)]
      (by decide) (by decide) (by decide) (by decide) (by decide) (by decide)
      (by decide) (by decide) (by decide) (by decide) (by decide) (by decide)⟩


/-- C7: when `parse_scalar` reads a type tag resolving to `DMAP` (tag 0),
it recursively parses one complete record at the cursor, advances the
cursor past everything the sub-parse consumed, discards the sub-record's
contents (the scalar's value is the bare `DMAP` marker with mode 6), and
propagates any failure of the sub-parse. -/
theorem C7_nested_scalar (nested : NestedFn) (stream : List Nat) (pos : Nat)
    (name : List Nat) (p1 p2 : Nat)
    (hname : read_dataN nested stream pos (.STRING []) = .ok (.STRING name, p1))
    (hkey : read_dataN nested stream p1 (.CHAR 0) = .ok (.CHAR 0, p2)) :
    (∀ (rsub : RawDmapRecord) (p3 : Nat), nested stream p2 = .ok (rsub, p3) →
      parse_scalarN nested stream pos = .ok ((name, ⟨.DMAP, 6⟩), p3)) ∧
    (∀ e, nested stream p2 = .err e → parse_scalarN nested stream pos = .err e) ∧
    (∀ c, nested stream p2 = .crash c → parse_scalarN nested stream pos = .crash c) := by
  refine ⟨?_, ?_, ?_⟩
  · intro rsub p3 hsub
    simp [parse_scalarN, hname, hkey, hsub, DmapType.get_type_from_key,
      DmapType.all_keys]
  · intro e hsub
    simp [parse_scalarN, hname, hkey, hsub, DmapType.get_type_from_key,
      DmapType.all_keys]
  · intro c hsub
    simp [parse_scalarN, hname, hkey, hsub, DmapType.get_type_from_key,
      DmapType.all_keys]

set_option maxRecDepth 1000000 in
/-- Witness for C7: the buffer `"n\0"`, tag byte 0, then the scenario-5
record: the scalar parse returns the `DMAP` marker and the cursor lands
after the 39 nested-record bytes. -/
theorem C7_nested_scalar_witness :
    parse_scalar 1 c7buf 0 = .ok (([110], ⟨.DMAP, 6⟩), 42) :=
  (C7_nested_scalar (nestedAt 1) c7buf 0 [110] 2 3
      (by decide) (by decide)).1 rec5 42 (by decide)


/-- Zipping a list with itself extended on the right sees only the common
prefix. -/
theorem zip_append_right {α : Type} (l t : List α) :
    List.zip l (l ++ t) = List.zip l l := by
  induction l with
  | nil => simp
  | cons x xs ih => simp [ih]

/-- C3 (amended): equality of records is decided over the common prefix of
the ordered name lists *only after* the two count fields compare exactly
equal: appending a trailing scalar while leaving `num_scalars` untouched
produces a record that still compares equal (prefix semantics), while
appending it and updating `num_scalars` — as any honestly extended record
would — produces one that compares unequal. -/
theorem C3_amended (r : RawDmapRecord) (n : List Nat) (s : RawDmapScalar)
    (hrr : recordEq r r = true) (hn : ¬ n ∈ r.scalar_list) :
    recordEq r (addScalarKeepCount r n s) = true ∧
    recordEq r (addScalarBumpCount r n s) = false := by
  constructor
  · have h1 : recordEq r r = true := hrr
    simp only [recordEq, beq_self_eq_true, Bool.and_self, Bool.not_true,
      Bool.false_eq_true, if_false, Bool.and_eq_true] at h1
    obtain ⟨hS, hA⟩ := h1
    simp only [recordEq, addScalarKeepCount, beq_self_eq_true, Bool.and_self,
      Bool.not_true, Bool.false_eq_true, if_false, Bool.and_eq_true,
      zip_append_right]
    refine ⟨?_, hA⟩
    rw [zip_self] at hS ⊢
    rw [List.all_eq_true] at hS ⊢
    intro p hp
    obtain ⟨m, hm, rfl⟩ := List.mem_map.mp hp
    have hmn : ¬ m = n := fun he => hn (he ▸ hm)
    have hlk := Smap.lookup_insert_ne r.scalars n m s hmn
    simpa [hlk] using hS (m, m) (List.mem_map.mpr ⟨m, hm, rfl⟩)
  · simp only [recordEq, addScalarBumpCount]
    have hc : (r.num_scalars == r.num_scalars + 1) = false := by
      rw [beq_eq_false_iff_ne]
      omega
    simp [hc]

/-- Witness for C3: the amended statement at the concrete base record. -/
theorem C3_amended_witness :
    recordEq c3rec (addScalarKeepCount c3rec [116] ⟨.CHAR 9, 6⟩) = true ∧
    recordEq c3rec (addScalarBumpCount c3rec [116] ⟨.CHAR 9, 6⟩) = false :=
  C3_amended c3rec [116] ⟨.CHAR 9, 6⟩ (by decide) (by decide)


/-- Inversion of a successful `parse_recordN`: the record's fields are the
outputs of the two entry loops started from the empty list and map, and the
counts are positive. -/
theorem parse_recordN_ok_inv {nested : NestedFn} {stream : List Nat} {pos : Nat}
    {r : RawDmapRecord} {p' : Nat}
    (h : parse_recordN nested stream pos = .ok (r, p')) :
    ∃ (code size nS nA : Int) (p1 p2 p3 p4 p5 : Nat) (slist alist : List (List Nat))
      (mpS : Smap RawDmapScalar) (mpA : Smap RawDmapArray),
      read_dataN nested stream pos (.INT 0) = .ok (.INT code, p1) ∧
      read_dataN nested stream p1 (.INT 0) = .ok (.INT size, p2) ∧
      read_dataN nested stream p2 (.INT 0) = .ok (.INT nS, p3) ∧
      read_dataN nested stream p3 (.INT 0) = .ok (.INT nA, p4) ∧
      0 < nS ∧ 0 < nA ∧
      parse_scalars_loopN nested stream nS.toNat p4 [] Smap.empty = .ok ((slist, mpS), p5) ∧
      parse_arrays_loopN nested stream size nA.toNat p5 [] Smap.empty = .ok ((alist, mpA), p') ∧
      r = ⟨nS, nA, slist, alist, mpS, mpA⟩ := by
  cases hc1 : read_dataN nested stream pos (.INT 0) with
  | err e => simp [parse_recordN, hc1] at h
  | crash c => simp [parse_recordN, hc1] at h
  | nofuel => simp [parse_recordN, hc1] at h
  | ok v1 =>
    obtain ⟨d1, p1⟩ := v1
    cases d1 <;> simp only [parse_recordN, hc1, reduceCtorEq] at h
    rename_i code
    cases hc2 : read_dataN nested stream p1 (.INT 0) with
    | err e => simp only [hc2, reduceCtorEq] at h
    | crash c => simp only [hc2, reduceCtorEq] at h
    | nofuel => simp only [hc2, reduceCtorEq] at h
    | ok v2 =>
      obtain ⟨d2, p2⟩ := v2
      cases d2 <;> simp only [hc2, reduceCtorEq] at h
      rename_i size
      by_cases hsz : toUnsigned 64 size > stream.length - p2 + 2 * (DmapType.INT 0).get_num_bytes
      · rw [if_pos hsz] at h
        simp only [reduceCtorEq] at h
      · rw [if_neg hsz] at h
        by_cases hsp : size ≤ 0
        · rw [if_pos hsp] at h
          simp only [reduceCtorEq] at h
        · rw [if_neg hsp] at h
          cases hc3 : read_dataN nested stream p2 (.INT 0) with
          | err e => simp only [hc3, reduceCtorEq] at h
          | crash c => simp only [hc3, reduceCtorEq] at h
          | nofuel => simp only [hc3, reduceCtorEq] at h
          | ok v3 =>
            obtain ⟨d3, p3⟩ := v3
            cases d3 <;> simp only [hc3, reduceCtorEq] at h
            rename_i nS
            cases hc4 : read_dataN nested stream p3 (.INT 0) with
            | err e => simp only [hc4, reduceCtorEq] at h
            | crash c => simp only [hc4, reduceCtorEq] at h
            | nofuel => simp only [hc4, reduceCtorEq] at h
            | ok v4 =>
              obtain ⟨d4, p4⟩ := v4
              cases d4 <;> simp only [hc4, reduceCtorEq] at h
              rename_i nA
              by_cases hns : nS ≤ 0
              · rw [if_pos hns] at h
                simp only [reduceCtorEq] at h
              · rw [if_neg hns] at h
                by_cases hna : nA ≤ 0
                · rw [if_pos hna] at h
                  simp only [reduceCtorEq] at h
                · rw [if_neg hna] at h
                  by_cases hcnt : wrap32 (nS + nA) > size
                  · rw [if_pos hcnt] at h
                    simp only [reduceCtorEq] at h
                  · rw [if_neg hcnt] at h
                    cases hls : parse_scalars_loopN nested stream nS.toNat p4 [] Smap.empty with
                    | err e => simp only [hls, reduceCtorEq] at h
                    | crash c => simp only [hls, reduceCtorEq] at h
                    | nofuel => simp only [hls, reduceCtorEq] at h
                    | ok outS =>
                      obtain ⟨⟨slist, mpS⟩, p5⟩ := outS
                      simp only [hls] at h
                      cases hla : parse_arrays_loopN nested stream size nA.toNat p5 [] Smap.empty with
                      | err e => simp only [hla, reduceCtorEq] at h
                      | crash c => simp only [hla, reduceCtorEq] at h
                      | nofuel => simp only [hla, reduceCtorEq] at h
                      | ok outA =>
                        obtain ⟨⟨alist, mpA⟩, p6⟩ := outA
                        simp only [hla] at h
                        by_cases hfin : p6 - pos ≠ toUnsigned 64 size
                        · rw [if_pos hfin] at h
                          simp only [reduceCtorEq] at h
                        · rw [if_neg hfin] at h
                          simp only [PRes.ok.injEq, Prod.mk.injEq] at h
                          obtain ⟨hr, hp⟩ := h
                          exact ⟨code, size, nS, nA, p1, p2, p3, p4, p5,
                            slist, alist, mpS, mpA, rfl, hc2, hc3, hc4,
                            by omega, by omega, hls, hp ▸ hla, hr.symm⟩


/-- `insert` grows the map by at most one binding. -/
theorem Smap.size_insert_le {α : Type} (m : Smap α) (k : List Nat) (v : α) :
    (m.insert k v).size ≤ m.size + 1 := by
  simp only [Smap.insert, Smap.size, List.length_cons]
  have := List.length_filter_le (fun p => !(p.1 == k)) m
  omega

/-- `insert` preserves presence of any key. -/
theorem Smap.lookup_insert_isSome {α : Type} (m : Smap α) (k n : List Nat) (v : α)
    (h : (m.lookup n).isSome = true) : ((m.insert k v).lookup n).isSome = true := by
  by_cases hk : n = k
  · subst hk
    rw [Smap.lookup_insert_self]
    rfl
  · rw [Smap.lookup_insert_ne m k n v hk]
    exact h

/-- The inserted key is present. -/
theorem Smap.lookup_insert_self_isSome {α : Type} (m : Smap α) (k : List Nat) (v : α) :
    ((m.insert k v).lookup k).isSome = true := by
  rw [Smap.lookup_insert_self]
  rfl

/-- Structural invariants of the scalar loop: the produced list grows by
exactly the count, presence in the map is preserved, every produced name is
mapped, and the map grows by at most the count. -/
theorem parse_scalars_loopN_inv (nested : NestedFn) (stream : List Nat) :
    ∀ (cnt pos : Nat) (lst : List (List Nat)) (mp : Smap RawDmapScalar)
      (out : List (List Nat) × Smap RawDmapScalar) (p' : Nat),
      parse_scalars_loopN nested stream cnt pos lst mp = .ok (out, p') →
      out.1.length = lst.length + cnt ∧
      (∀ n, (mp.lookup n).isSome = true → (out.2.lookup n).isSome = true) ∧
      (∀ n ∈ out.1, n ∈ lst ∨ (out.2.lookup n).isSome = true) ∧
      out.2.size ≤ mp.size + cnt := by
  intro cnt
  induction cnt with
  | zero =>
    intro pos lst mp out p' h
    simp only [parse_scalars_loopN, PRes.ok.injEq, Prod.mk.injEq] at h
    obtain ⟨h1, h2⟩ := h
    subst h1
    subst h2
    exact ⟨by simp, fun n hn => hn, fun n hn => .inl hn, by simp⟩
  | succ k ih =>
    intro pos lst mp out p' h
    cases hps : parse_scalarN nested stream pos with
    | err e => simp only [parse_scalars_loopN, hps, reduceCtorEq] at h
    | crash c => simp only [parse_scalars_loopN, hps, reduceCtorEq] at h
    | nofuel => simp only [parse_scalars_loopN, hps, reduceCtorEq] at h
    | ok v =>
      obtain ⟨⟨name, val⟩, p⟩ := v
      simp only [parse_scalars_loopN, hps] at h
      obtain ⟨hlen, hpres, hmem, hsz⟩ := ih p (lst ++ [name]) (mp.insert name val) out p' h
      refine ⟨?_, ?_, ?_, ?_⟩
      · simp only [List.length_append, List.length_cons, List.length_nil] at hlen
        omega
      · intro n hn
        exact hpres n (Smap.lookup_insert_isSome mp name n val hn)
      · intro n hn
        rcases hmem n hn with hm | hs
        · rcases List.mem_append.mp hm with hm2 | hm2
          · exact .inl hm2
          · have : n = name := by simpa using hm2
            subst this
            exact .inr (hpres n (Smap.lookup_insert_self_isSome mp n val))
        · exact .inr hs
      · have := Smap.size_insert_le mp name val
        omega

/-- Structural invariants of the array loop (as for the scalar loop). -/
theorem parse_arrays_loopN_inv (nested : NestedFn) (stream : List Nat) (record_size : Int) :
    ∀ (cnt pos : Nat) (lst : List (List Nat)) (mp : Smap RawDmapArray)
      (out : List (List Nat) × Smap RawDmapArray) (p' : Nat),
      parse_arrays_loopN nested stream record_size cnt pos lst mp = .ok (out, p') →
      out.1.length = lst.length + cnt ∧
      (∀ n, (mp.lookup n).isSome = true → (out.2.lookup n).isSome = true) ∧
      (∀ n ∈ out.1, n ∈ lst ∨ (out.2.lookup n).isSome = true) ∧
      out.2.size ≤ mp.size + cnt := by
  intro cnt
  induction cnt with
  | zero =>
    intro pos lst mp out p' h
    simp only [parse_arrays_loopN, PRes.ok.injEq, Prod.mk.injEq] at h
    obtain ⟨h1, h2⟩ := h
    subst h1
    subst h2
    exact ⟨by simp, fun n hn => hn, fun n hn => .inl hn, by simp⟩
  | succ k ih =>
    intro pos lst mp out p' h
    cases hps : parse_arrayN nested stream pos record_size with
    | err e => simp only [parse_arrays_loopN, hps, reduceCtorEq] at h
    | crash c => simp only [parse_arrays_loopN, hps, reduceCtorEq] at h
    | nofuel => simp only [parse_arrays_loopN, hps, reduceCtorEq] at h
    | ok v =>
      obtain ⟨⟨name, val⟩, p⟩ := v
      simp only [parse_arrays_loopN, hps] at h
      obtain ⟨hlen, hpres, hmem, hsz⟩ := ih p (lst ++ [name]) (mp.insert name val) out p' h
      refine ⟨?_, ?_, ?_, ?_⟩
      · simp only [List.length_append, List.length_cons, List.length_nil] at hlen
        omega
      · intro n hn
        exact hpres n (Smap.lookup_insert_isSome mp name n val hn)
      · intro n hn
        rcases hmem n hn with hm | hs
        · rcases List.mem_append.mp hm with hm2 | hm2
          · exact .inl hm2
          · have : n = name := by simpa using hm2
            subst this
            exact .inr (hpres n (Smap.lookup_insert_self_isSome mp n val))
        · exact .inr hs
      · have := Smap.size_insert_le mp name val
        omega

/-- C4 (amended): every record produced by a successful `parse_record` has
`num_scalars = scalar_list.length` and `num_arrays = array_list.length`,
and every listed name has an entry in the respective map; the map sizes
however are only *bounded* by the list lengths (`size ≤ length`), and can
be strictly smaller when the buffer repeats an entry name. -/
theorem C4_invariants (fuel : Nat) (stream : List Nat) (pos : Nat)
    (r : RawDmapRecord) (p' : Nat)
    (h : parse_record fuel stream pos = .ok (r, p')) :
    r.num_scalars = (r.scalar_list.length : Int) ∧
    r.num_arrays = (r.array_list.length : Int) ∧
    (∀ n ∈ r.scalar_list, (r.scalars.lookup n).isSome = true) ∧
    (∀ n ∈ r.array_list, (r.arrays.lookup n).isSome = true) ∧
    r.scalars.size ≤ r.scalar_list.length ∧
    r.arrays.size ≤ r.array_list.length := by
  have hex : ∃ nested, parse_recordN nested stream pos = .ok (r, p') := by
    cases fuel with
    | zero => exact ⟨_, h⟩
    | succ f => exact ⟨_, h⟩
  obtain ⟨nested, hN⟩ := hex
  obtain ⟨code, size, nS, nA, p1, p2, p3, p4, p5, slist, alist, mpS, mpA,
    hc1, hc2, hc3, hc4, hnS, hnA, hls, hla, hrec⟩ := parse_recordN_ok_inv hN
  obtain ⟨hlenS, _, hmemS, hszS⟩ :=
    parse_scalars_loopN_inv nested stream nS.toNat p4 [] Smap.empty (slist, mpS) p5 hls
  obtain ⟨hlenA, _, hmemA, hszA⟩ :=
    parse_arrays_loopN_inv nested stream size nA.toNat p5 [] Smap.empty (alist, mpA) p' hla
  subst hrec
  have hlenS2 : slist.length = nS.toNat := by simpa using hlenS
  have hlenA2 : alist.length = nA.toNat := by simpa using hlenA
  have hszS2 : mpS.size ≤ nS.toNat := by simpa [Smap.empty, Smap.size] using hszS
  have hszA2 : alist.length ≥ mpA.size → True := fun _ => trivial
  have hszA3 : mpA.size ≤ nA.toNat := by simpa [Smap.empty, Smap.size] using hszA
  refine ⟨?_, ?_, ?_, ?_, ?_, ?_⟩
  · show nS = (slist.length : Int)
    omega
  · show nA = (alist.length : Int)
    omega
  · show ∀ n ∈ slist, ((mpS.lookup n).isSome) = true
    intro n hn
    rcases hmemS n hn with hm | hs
    · exact absurd hm (by simp)
    · exact hs
  · show ∀ n ∈ alist, ((mpA.lookup n).isSome) = true
    intro n hn
    rcases hmemA n hn with hm | hs
    · exact absurd hm (by simp)
    · exact hs
  · show mpS.size ≤ slist.length
    omega
  · show mpA.size ≤ alist.length
    omega


set_option maxRecDepth 1000000 in
/-- Witness for C4 (amended): the duplicate-name buffer. -/
theorem C4_invariants_witness :
    c4rec.num_scalars = (c4rec.scalar_list.length : Int) ∧
    c4rec.num_arrays = (c4rec.array_list.length : Int) ∧
    (∀ n ∈ c4rec.scalar_list, ((c4rec.scalars.lookup n).isSome) = true) ∧
    (∀ n ∈ c4rec.array_list, ((c4rec.arrays.lookup n).isSome) = true) ∧
    c4rec.scalars.size ≤ c4rec.scalar_list.length ∧
    c4rec.arrays.size ≤ c4rec.array_list.length :=
  C4_invariants 1 c4buf 0 c4rec c4buf.length (by decide)


/-- The dimension loop validates each dimension individually (positive and
at most the record size) and accumulates the product with wrapping `i32`
multiplication. -/
theorem read_dims_loopN_spec (nested : NestedFn) (stream : List Nat) (record_size : Int) :
    ∀ (n pos : Nat) (dims0 : List Int) (total0 : Int)
      (dims : List Int) (total : Int) (p' : Nat),
      read_dims_loopN nested stream record_size n pos dims0 total0 =
        .ok ((dims, total), p') →
      ∃ new, dims = dims0 ++ new ∧ (∀ d ∈ new, 0 < d ∧ d ≤ record_size) ∧
        total = new.foldl (fun t d => wrap32 (t * d)) total0 := by
  intro n
  induction n with
  | zero =>
    intro pos dims0 total0 dims total p' h
    simp only [read_dims_loopN, PRes.ok.injEq, Prod.mk.injEq] at h
    obtain ⟨⟨h1, h2⟩, _⟩ := h
    subst h1
    subst h2
    exact ⟨[], by simp, by simp, by simp⟩
  | succ k ih =>
    intro pos dims0 total0 dims total p' h
    cases hrd : read_dataN nested stream pos (.INT 0) with
    | err e => simp only [read_dims_loopN, hrd, reduceCtorEq] at h
    | crash c => simp only [read_dims_loopN, hrd, reduceCtorEq] at h
    | nofuel => simp only [read_dims_loopN, hrd, reduceCtorEq] at h
    | ok v =>
      obtain ⟨d, p⟩ := v
      cases d <;> simp only [read_dims_loopN, hrd, reduceCtorEq] at h
      rename_i dim
      by_cases h1 : dim ≤ 0
      · rw [if_pos h1] at h
        simp only [reduceCtorEq] at h
      · rw [if_neg h1] at h
        by_cases h2 : dim > record_size
        · rw [if_pos h2] at h
          simp only [reduceCtorEq] at h
        · rw [if_neg h2] at h
          obtain ⟨new, hdims, hbound, htot⟩ := ih p (dims0 ++ [dim]) (wrap32 (total0 * dim))
            dims total p' h
          refine ⟨dim :: new, by simpa [List.append_assoc] using hdims, ?_, by simpa using htot⟩
          intro x hx
          rcases List.mem_cons.mp hx with rfl | hx2
          · exact ⟨by omega, by omega⟩
          · exact hbound x hx2


/-- C6 (amended): `parse_array` validates each dimension independently
(positive and at most the record size) and then enforces the two product
bounds — but on the product accumulated in *wrapping* `i32` arithmetic
(`wrapProd`), not the mathematical product: when that wrapped product (or
the wrapped product times the element width) exceeds the record size the
decode fails, but a dimension vector whose astronomically large true
product wraps into range slips through (see the C6 counterexample). -/
theorem C6_wrapped_guard (nested : NestedFn) (stream : List Nat) (pos : Nat)
    (record_size : Int) (name : List Nat) (k nd : Int) (data_type : DmapType)
    (p1 p2 p3 p4 : Nat) (dims : List Int) (total : Int)
    (hname : read_dataN nested stream pos (.STRING []) = .ok (.STRING name, p1))
    (hkey : read_dataN nested stream p1 (.CHAR 0) = .ok (.CHAR k, p2))
    (hcont : DmapType.all_keys.contains k = true)
    (htype : DmapType.get_type_from_key k = .ok data_type)
    (hnd : read_dataN nested stream p2 (.INT 0) = .ok (.INT nd, p3))
    (hnd1 : ¬ (nd > record_size)) (hnd2 : ¬ (nd ≤ 0))
    (hdims : read_dims_loopN nested stream record_size nd.toNat p3 [] 1 =
      .ok ((dims, total), p4)) :
    ((∀ d ∈ dims, 0 < d ∧ d ≤ record_size) ∧ total = wrapProd dims) ∧
    (total > record_size →
      parse_arrayN nested stream pos record_size =
        .err (.Message .parseArrayTooManyElements)) ∧
    (¬ (total > record_size) →
      wrap32 (total * (data_type.get_num_bytes : Int)) > record_size →
      parse_arrayN nested stream pos record_size =
        .err (.Message .parseArraySizeExceedsRecordSize)) := by
  have hmem : k ∈ DmapType.all_keys := by simpa using hcont
  refine ⟨?_, ?_, ?_⟩
  · obtain ⟨new, hd, hb, ht⟩ := read_dims_loopN_spec nested stream record_size
      nd.toNat p3 [] 1 dims total p4 hdims
    have hdn : dims = new := by simpa using hd
    subst hdn
    exact ⟨hb, by simpa [wrapProd] using ht⟩
  · intro hbig
    simp [parse_arrayN, hname, hkey, hcont, hmem, htype, hnd, hnd1, hnd2, hdims, hbig]
  · intro hok hbig
    simp [parse_arrayN, hname, hkey, hcont, hmem, htype, hnd, hnd1, hnd2, hdims, hok, hbig]

set_option maxRecDepth 1000000 in
/-- Witness for C6 (amended): both product guards firing at concrete
buffers. -/
theorem C6_wrapped_guard_witness :
    parse_arrayN (nestedAt 1) [97, 0, 1, 2, 0, 0, 0, 10, 0, 0, 0, 10, 0, 0, 0] 0 39 =
      .err (.Message .parseArrayTooManyElements) ∧
    parse_arrayN (nestedAt 1) [98, 0, 3, 1, 0, 0, 0, 10, 0, 0, 0] 0 39 =
      .err (.Message .parseArraySizeExceedsRecordSize) :=
  ⟨(C6_wrapped_guard (nestedAt 1) [97, 0, 1, 2, 0, 0, 0, 10, 0, 0, 0, 10, 0, 0, 0] 0 39
      [97] 1 2 (.CHAR 0) 2 3 7 15 [10, 10] 100
      (by decide) (by decide) (by decide) (by decide) (by decide) (by decide) (by decide)
      (by decide)).2.1 (by decide),
   (C6_wrapped_guard (nestedAt 1) [98, 0, 3, 1, 0, 0, 0, 10, 0, 0, 0] 0 39
      [98] 3 1 (.INT 0) 2 3 7 11 [10] 10
      (by decide) (by decide) (by decide) (by decide) (by decide) (by decide) (by decide)
      (by decide)).2.2 (by decide) (by decide)⟩




/-- `read_data` never moves the cursor backwards. -/
theorem read_dataN_mono {nested : NestedFn} {s : List Nat} {p : Nat} {dt d : DmapType}
    {p' : Nat} (h : read_dataN nested s p dt = .ok (d, p')) : p ≤ p' := by
  simp only [read_dataN] at h
  repeat' split at h
  all_goals
    first
    | simp only [reduceCtorEq] at h
    | (simp only [PRes.ok.injEq, Prod.mk.injEq] at h; omega)

/-- The dimension loop never moves the cursor backwards. -/
theorem read_dims_loopN_mono (nested : NestedFn) (s : List Nat) (rs : Int) :
    ∀ (n pos : Nat) (dims0 : List Int) (total0 : Int) (out : List Int × Int) (p' : Nat),
      read_dims_loopN nested s rs n pos dims0 total0 = .ok (out, p') → pos ≤ p' := by
  intro n
  induction n with
  | zero =>
    intro pos dims0 total0 out p' h
    simp only [read_dims_loopN, PRes.ok.injEq, Prod.mk.injEq] at h
    omega
  | succ k ih =>
    intro pos dims0 total0 out p' h
    cases hrd : read_dataN nested s pos (.INT 0) with
    | err e => simp only [read_dims_loopN, hrd, reduceCtorEq] at h
    | crash c => simp only [read_dims_loopN, hrd, reduceCtorEq] at h
    | nofuel => simp only [read_dims_loopN, hrd, reduceCtorEq] at h
    | ok v =>
      obtain ⟨dd, p⟩ := v
      cases dd <;> simp only [read_dims_loopN, hrd, reduceCtorEq] at h
      rename_i dim
      by_cases h1 : dim ≤ 0
      · rw [if_pos h1] at h
        simp only [reduceCtorEq] at h
      · rw [if_neg h1] at h
        by_cases h2 : dim > rs
        · rw [if_pos h2] at h
          simp only [reduceCtorEq] at h
        · rw [if_neg h2] at h
          have hih := ih p (dims0 ++ [dim]) (wrap32 (total0 * dim)) out p' h
          have hrm := read_dataN_mono hrd
          omega

/-- The element loop never moves the cursor backwards. -/
theorem read_elems_loopN_mono (nested : NestedFn) (s : List Nat) (dt : DmapType) :
    ∀ (n pos : Nat) (acc : List DmapType) (out : List DmapType × Nat),
      read_elems_loopN nested s dt n pos acc = .ok out → pos ≤ out.2 := by
  intro n
  induction n with
  | zero =>
    intro pos acc out h
    simp only [read_elems_loopN, PRes.ok.injEq] at h
    subst h
    exact le_refl _
  | succ k ih =>
    intro pos acc out h
    cases hrd : read_dataN nested s pos dt with
    | err e => simp only [read_elems_loopN, hrd, reduceCtorEq] at h
    | crash c => simp only [read_elems_loopN, hrd, reduceCtorEq] at h
    | nofuel => simp only [read_elems_loopN, hrd, reduceCtorEq] at h
    | ok v =>
      obtain ⟨d, p⟩ := v
      simp only [read_elems_loopN, hrd] at h
      have hih := ih p (acc ++ [d]) out h
      have hrm := read_dataN_mono hrd
      omega

/-- `parse_scalar` never moves the cursor backwards (given a monotone
nested parser). -/
theorem parse_scalarN_mono {nested : NestedFn} (hm : NestedMono nested)
    {s : List Nat} {pos : Nat} {out : (List Nat × RawDmapScalar) × Nat}
    (h : parse_scalarN nested s pos = .ok out) : pos ≤ out.2 := by
  cases hc1 : read_dataN nested s pos (.STRING []) with
  | err e => simp only [parse_scalarN, hc1, reduceCtorEq] at h
  | crash c => simp only [parse_scalarN, hc1, reduceCtorEq] at h
  | nofuel => simp only [parse_scalarN, hc1, reduceCtorEq] at h
  | ok v1 =>
    obtain ⟨d1, p1⟩ := v1
    cases d1 <;> simp only [parse_scalarN, hc1, reduceCtorEq] at h
    rename_i name
    cases hc2 : read_dataN nested s p1 (.CHAR 0) with
    | err e => simp only [hc2, reduceCtorEq] at h
    | crash c => simp only [hc2, reduceCtorEq] at h
    | nofuel => simp only [hc2, reduceCtorEq] at h
    | ok v2 =>
      obtain ⟨d2, p2⟩ := v2
      cases d2 <;> simp only [hc2, reduceCtorEq] at h
      rename_i key
      by_cases hk : !(DmapType.all_keys.contains key)
      · rw [if_pos hk] at h
        simp only [reduceCtorEq] at h
      · rw [if_neg hk] at h
        cases ht : DmapType.get_type_from_key key with
        | err e => simp only [ht, reduceCtorEq] at h
        | crash c => simp only [ht, reduceCtorEq] at h
        | nofuel => simp only [ht, reduceCtorEq] at h
        | ok data_type =>
          have hm1 := read_dataN_mono hc1
          have hm2 := read_dataN_mono hc2
          cases data_type <;> simp only [ht] at h <;>
            (split at h <;>
              first
              | simp only [reduceCtorEq] at h
              | (rename_i x y heq
                 simp only [PRes.ok.injEq] at h
                 subst h
                 first
                 | (have hmm3 := read_dataN_mono heq
                    show pos ≤ y
                    omega)
                 | (have hmm3 := hm _ _ _ _ heq
                    show pos ≤ y
                    omega)))


/-- `parse_array` never moves the cursor backwards. -/
theorem parse_arrayN_mono {nested : NestedFn} {s : List Nat} {pos : Nat}
    {record_size : Int} {out : (List Nat × RawDmapArray) × Nat}
    (h : parse_arrayN nested s pos record_size = .ok out) : pos ≤ out.2 := by
  cases hc1 : read_dataN nested s pos (.STRING []) with
  | err e => simp only [parse_arrayN, hc1, reduceCtorEq] at h
  | crash c => simp only [parse_arrayN, hc1, reduceCtorEq] at h
  | nofuel => simp only [parse_arrayN, hc1, reduceCtorEq] at h
  | ok v1 =>
    obtain ⟨d1, p1⟩ := v1
    cases d1 <;> simp only [parse_arrayN, hc1, reduceCtorEq] at h
    rename_i name
    cases hc2 : read_dataN nested s p1 (.CHAR 0) with
    | err e => simp only [hc2, reduceCtorEq] at h
    | crash c => simp only [hc2, reduceCtorEq] at h
    | nofuel => simp only [hc2, reduceCtorEq] at h
    | ok v2 =>
      obtain ⟨d2, p2⟩ := v2
      cases d2 <;> simp only [hc2, reduceCtorEq] at h
      rename_i key
      by_cases hk : !(DmapType.all_keys.contains key)
      · rw [if_pos hk] at h
        simp only [reduceCtorEq] at h
      · rw [if_neg hk] at h
        cases ht : DmapType.get_type_from_key key with
        | err e => simp only [ht, reduceCtorEq] at h
        | crash c => simp only [ht, reduceCtorEq] at h
        | nofuel => simp only [ht, reduceCtorEq] at h
        | ok data_type =>
          simp only [ht] at h
          cases hc3 : read_dataN nested s p2 (.INT 0) with
          | err e => simp only [hc3, reduceCtorEq] at h
          | crash c => simp only [hc3, reduceCtorEq] at h
          | nofuel => simp only [hc3, reduceCtorEq] at h
          | ok v3 =>
            obtain ⟨d3, p3⟩ := v3
            cases d3 <;> simp only [hc3, reduceCtorEq] at h
            rename_i nd
            by_cases h1 : nd > record_size
            · rw [if_pos h1] at h
              simp only [reduceCtorEq] at h
            · rw [if_neg h1] at h
              by_cases h2 : nd ≤ 0
              · rw [if_pos h2] at h
                simp only [reduceCtorEq] at h
              · rw [if_neg h2] at h
                cases hdl : read_dims_loopN nested s record_size nd.toNat p3 [] 1 with
                | err e => simp only [hdl, reduceCtorEq] at h
                | crash c => simp only [hdl, reduceCtorEq] at h
                | nofuel => simp only [hdl, reduceCtorEq] at h
                | ok v4 =>
                  obtain ⟨⟨dims, total⟩, p4⟩ := v4
                  simp only [hdl] at h
                  by_cases h3 : total > record_size
                  · rw [if_pos h3] at h
                    simp only [reduceCtorEq] at h
                  · rw [if_neg h3] at h
                    by_cases h4 : wrap32 (total * (data_type.get_num_bytes : Int)) > record_size
                    · rw [if_pos h4] at h
                      simp only [reduceCtorEq] at h
                    · rw [if_neg h4] at h
                      cases hel : read_elems_loopN nested s data_type total.toNat p4 [] with
                      | err e => simp only [hel, reduceCtorEq] at h
                      | crash c => simp only [hel, reduceCtorEq] at h
                      | nofuel => simp only [hel, reduceCtorEq] at h
                      | ok v5 =>
                        obtain ⟨data, p5⟩ := v5
                        simp only [hel, PRes.ok.injEq] at h
                        subst h
                        have hm1 := read_dataN_mono hc1
                        have hm2 := read_dataN_mono hc2
                        have hm3 := read_dataN_mono hc3
                        have hm4 := read_dims_loopN_mono nested s record_size
                          nd.toNat p3 [] 1 (dims, total) p4 hdl
                        have hm5 := read_elems_loopN_mono nested s data_type
                          total.toNat p4 [] (data, p5) hel
                        show pos ≤ p5
                        simp only [] at hm5
                        omega

/-- The scalar loop never moves the cursor backwards. -/
theorem parse_scalars_loopN_mono {nested : NestedFn} (hm : NestedMono nested)
    (s : List Nat) :
    ∀ (n pos : Nat) (lst : List (List Nat)) (mp : Smap RawDmapScalar)
      (out : (List (List Nat) × Smap RawDmapScalar) × Nat),
      parse_scalars_loopN nested s n pos lst mp = .ok out → pos ≤ out.2 := by
  intro n
  induction n with
  | zero =>
    intro pos lst mp out h
    simp only [parse_scalars_loopN, PRes.ok.injEq] at h
    subst h
    exact le_refl _
  | succ k ih =>
    intro pos lst mp out h
    cases hps : parse_scalarN nested s pos with
    | err e => simp only [parse_scalars_loopN, hps, reduceCtorEq] at h
    | crash c => simp only [parse_scalars_loopN, hps, reduceCtorEq] at h
    | nofuel => simp only [parse_scalars_loopN, hps, reduceCtorEq] at h
    | ok v =>
      obtain ⟨⟨name, val⟩, p⟩ := v
      simp only [parse_scalars_loopN, hps] at h
      have hih := ih p (lst ++ [name]) (mp.insert name val) out h
      have hpm := parse_scalarN_mono hm hps
      simp only [] at hpm
      omega

/-- The array loop never moves the cursor backwards. -/
theorem parse_arrays_loopN_mono (nested : NestedFn) (s : List Nat) (record_size : Int) :
    ∀ (n pos : Nat) (lst : List (List Nat)) (mp : Smap RawDmapArray)
      (out : (List (List Nat) × Smap RawDmapArray) × Nat),
      parse_arrays_loopN nested s record_size n pos lst mp = .ok out → pos ≤ out.2 := by
  intro n
  induction n with
  | zero =>
    intro pos lst mp out h
    simp only [parse_arrays_loopN, PRes.ok.injEq] at h
    subst h
    exact le_refl _
  | succ k ih =>
    intro pos lst mp out h
    cases hps : parse_arrayN nested s pos record_size with
    | err e => simp only [parse_arrays_loopN, hps, reduceCtorEq] at h
    | crash c => simp only [parse_arrays_loopN, hps, reduceCtorEq] at h
    | nofuel => simp only [parse_arrays_loopN, hps, reduceCtorEq] at h
    | ok v =>
      obtain ⟨⟨name, val⟩, p⟩ := v
      simp only [parse_arrays_loopN, hps] at h
      have hih := ih p (lst ++ [name]) (mp.insert name val) out h
      have hpm := parse_arrayN_mono hps
      simp only [] at hpm
      omega


/-- `parse_record` (any fuel, any position) never moves the cursor
backwards. -/
theorem parse_recordN_mono {nested : NestedFn} (hm : NestedMono nested)
    {s : List Nat} {pos : Nat} {r : RawDmapRecord} {p' : Nat}
    (h : parse_recordN nested s pos = .ok (r, p')) : pos ≤ p' := by
  obtain ⟨code, size, nS, nA, p1, p2, p3, p4, p5, slist, alist, mpS, mpA,
    hc1, hc2, hc3, hc4, _, _, hls, hla, _⟩ := parse_recordN_ok_inv h
  have h1 := read_dataN_mono hc1
  have h2 := read_dataN_mono hc2
  have h3 := read_dataN_mono hc3
  have h4 := read_dataN_mono hc4
  have h5 : p4 ≤ p5 :=
    parse_scalars_loopN_mono hm s nS.toNat p4 [] Smap.empty ((slist, mpS), p5) hls
  have h6 : p5 ≤ p' :=
    parse_arrays_loopN_mono nested s size nA.toNat p5 [] Smap.empty ((alist, mpA), p') hla
  omega

/-- The out-of-fuel nested parser is (vacuously) monotone. -/
theorem nofuel_mono : NestedMono (fun _ _ => PRes.nofuel) := by
  intro s p r p' h
  simp at h

/-- `parse_record` at every fuel level is monotone. -/
theorem parse_record_mono : ∀ fuel, NestedMono (parse_record fuel) := by
  intro fuel
  induction fuel with
  | zero =>
    intro s p r p' h
    exact parse_recordN_mono nofuel_mono h
  | succ f ih =>
    intro s p r p' h
    exact parse_recordN_mono ih h


/-- Agreement from `k` implies agreement from any later index. -/
theorem agreeFrom_mono {k k2 : Nat} {s1 s2 : List Nat} (h : agreeFrom k s1 s2)
    (hk : k ≤ k2) : agreeFrom k2 s1 s2 :=
  ⟨h.1, fun i hi => h.2 i (le_trans hk hi)⟩

/-- Agreeing buffers give equal bytes at agreed indices. -/
theorem getD_congr {k : Nat} {s1 s2 : List Nat} (h : agreeFrom k s1 s2)
    {i : Nat} (hi : k ≤ i) : s1.getD i 0 = s2.getD i 0 :=
  h.2 i hi

/-- Agreeing buffers give equal slices at agreed positions. -/
theorem sliceN_congr {k : Nat} {s1 s2 : List Nat} (h : agreeFrom k s1 s2)
    {p : Nat} (hp : k ≤ p) (n : Nat) : sliceN s1 p n = sliceN s2 p n := by
  apply List.ext_getElem?
  intro i
  simp only [sliceN, List.getElem?_take, List.getElem?_drop]
  by_cases hin : i < n
  · simp only [if_pos hin]
    by_cases hlen : p + i < s1.length
    · have e1 : s1[p + i]? = some (s1.getD (p + i) 0) := by
        rw [List.getElem?_eq_getElem hlen]
        rw [List.getD_eq_getElem _ _ hlen]
      have hlen2 : p + i < s2.length := by rw [← h.1]; exact hlen
      have e2 : s2[p + i]? = some (s2.getD (p + i) 0) := by
        rw [List.getElem?_eq_getElem hlen2]
        rw [List.getD_eq_getElem _ _ hlen2]
      rw [e1, e2, h.2 (p + i) (by omega)]
    · have e1 : s1[p + i]? = none := by
        rw [List.getElem?_eq_none_iff]
        omega
      have e2 : s2[p + i]? = none := by
        rw [List.getElem?_eq_none_iff]
        rw [← h.1]
        omega
      rw [e1, e2]
  · simp only [if_neg hin]

/-- The NUL-scan loop sees only the buffer length and bytes at or after
its position. -/
theorem scanGo_congr {k : Nat} {s1 s2 : List Nat} (h : agreeFrom k s1 s2)
    {p : Nat} (hp : k ≤ p) : ∀ (bc rem : Nat), scanGo s1 p bc rem = scanGo s2 p bc rem := by
  intro bc rem
  induction rem generalizing bc with
  | zero => rfl
  | succ m ih =>
    simp only [scanGo]
    rw [h.2 (p + bc) (by omega), h.1]
    by_cases hb : (s2.getD (p + bc) 0 != 0) = true
    · rw [if_pos hb, if_pos hb]
      by_cases hl : s2.length ≤ p + (bc + 1)
      · rw [if_pos hl, if_pos hl]
      · rw [if_neg hl, if_neg hl]
        exact ih (bc + 1)
    · rw [if_neg hb, if_neg hb]

/-- The NUL scan sees only the buffer length and bytes at or after its
position. -/
theorem scanTerm_congr {k : Nat} {s1 s2 : List Nat} (h : agreeFrom k s1 s2)
    {p : Nat} (hp : k ≤ p) (bc : Nat) : scanTerm s1 p bc = scanTerm s2 p bc := by
  simp only [scanTerm, h.1]
  exact scanGo_congr h hp bc _

/-- `read_data` depends only on the buffer length and the bytes at or
after the cursor. -/
theorem read_dataN_congr {k : Nat} {s1 s2 : List Nat} {n1 n2 : NestedFn}
    (hag : agreeFrom k s1 s2) (hnc : NestedCongr k s1 s2 n1 n2)
    {p : Nat} (hp : k ≤ p) (dt : DmapType) :
    read_dataN n1 s1 p dt = read_dataN n2 s2 p dt := by
  have hsl : ∀ n, sliceN s1 p n = sliceN s2 p n := fun n => sliceN_congr hag hp n
  have hst : scanTerm s1 p 0 = scanTerm s2 p 0 := scanTerm_congr hag hp 0
  have hne : n1 s1 p = n2 s2 p := hnc p hp
  simp only [read_dataN, hag.1, hsl, hst, hne]


/-- The element loop depends only on the buffer length and the bytes at
or after the cursor. -/
theorem read_elems_loopN_congr {k : Nat} {s1 s2 : List Nat} {n1 n2 : NestedFn}
    (hag : agreeFrom k s1 s2) (hnc : NestedCongr k s1 s2 n1 n2) (dt : DmapType) :
    ∀ (n pos : Nat) (acc : List DmapType), k ≤ pos →
      read_elems_loopN n1 s1 dt n pos acc = read_elems_loopN n2 s2 dt n pos acc := by
  intro n
  induction n with
  | zero => intro pos acc hp; rfl
  | succ m ih =>
    intro pos acc hp
    simp only [read_elems_loopN]
    rw [read_dataN_congr hag hnc hp dt]
    cases hv : read_dataN n2 s2 pos dt with
    | ok v =>
      obtain ⟨d, p⟩ := v
      have hpm : pos ≤ p := read_dataN_mono hv
      exact ih p (acc ++ [d]) (by omega)
    | err e => rfl
    | crash c => rfl
    | nofuel => rfl

/-- The dimension loop depends only on the buffer length and the bytes at
or after the cursor. -/
theorem read_dims_loopN_congr {k : Nat} {s1 s2 : List Nat} {n1 n2 : NestedFn}
    (hag : agreeFrom k s1 s2) (hnc : NestedCongr k s1 s2 n1 n2) (rs : Int) :
    ∀ (n pos : Nat) (dims0 : List Int) (total0 : Int), k ≤ pos →
      read_dims_loopN n1 s1 rs n pos dims0 total0 =
        read_dims_loopN n2 s2 rs n pos dims0 total0 := by
  intro n
  induction n with
  | zero => intro pos dims0 total0 hp; rfl
  | succ m ih =>
    intro pos dims0 total0 hp
    simp only [read_dims_loopN]
    rw [read_dataN_congr hag hnc hp (.INT 0)]
    cases hv : read_dataN n2 s2 pos (.INT 0) with
    | ok v =>
      obtain ⟨d, p⟩ := v
      have hpm : pos ≤ p := read_dataN_mono hv
      cases d <;> try rfl
      rename_i dim
      dsimp only []
      by_cases h1 : dim ≤ 0
      · rw [if_pos h1, if_pos h1]
      · rw [if_neg h1, if_neg h1]
        by_cases h2 : dim > rs
        · rw [if_pos h2, if_pos h2]
        · rw [if_neg h2, if_neg h2]
          exact ih p (dims0 ++ [dim]) (wrap32 (total0 * dim)) (by omega)
    | err e => rfl
    | crash c => rfl
    | nofuel => rfl

/-- `parse_scalar` depends only on the buffer length and the bytes at or
after the cursor. -/
theorem parse_scalarN_congr {k : Nat} {s1 s2 : List Nat} {n1 n2 : NestedFn}
    (hag : agreeFrom k s1 s2) (hnc : NestedCongr k s1 s2 n1 n2)
    {pos : Nat} (hp : k ≤ pos) :
    parse_scalarN n1 s1 pos = parse_scalarN n2 s2 pos := by
  simp only [parse_scalarN]
  rw [read_dataN_congr hag hnc hp (.STRING [])]
  cases hv1 : read_dataN n2 s2 pos (.STRING []) with
  | err e => rfl
  | crash c => rfl
  | nofuel => rfl
  | ok v1 =>
    obtain ⟨d1, p1⟩ := v1
    have hp1 : pos ≤ p1 := read_dataN_mono hv1
    cases d1 <;> try rfl
    rename_i name
    dsimp only []
    rw [read_dataN_congr hag hnc (show k ≤ p1 by omega) (.CHAR 0)]
    cases hv2 : read_dataN n2 s2 p1 (.CHAR 0) with
    | err e => rfl
    | crash c => rfl
    | nofuel => rfl
    | ok v2 =>
      obtain ⟨d2, p2⟩ := v2
      have hp2 : p1 ≤ p2 := read_dataN_mono hv2
      cases d2 <;> try rfl
      rename_i key
      dsimp only []
      by_cases hk : (!(DmapType.all_keys.contains key)) = true
      · rw [if_pos hk, if_pos hk]
      · rw [if_neg hk, if_neg hk]
        cases ht : DmapType.get_type_from_key key with
        | err e => rfl
        | crash c => rfl
        | nofuel => rfl
        | ok data_type =>
          dsimp only []
          cases data_type
          · rw [hnc p2 (by omega)]
          all_goals rw [read_dataN_congr hag hnc (show k ≤ p2 by omega)]



/-- `parse_array` depends only on the buffer length and the bytes at or
after the cursor. -/
theorem parse_arrayN_congr {k : Nat} {s1 s2 : List Nat} {n1 n2 : NestedFn}
    (hag : agreeFrom k s1 s2) (hnc : NestedCongr k s1 s2 n1 n2)
    {pos : Nat} (hp : k ≤ pos) (rs : Int) :
    parse_arrayN n1 s1 pos rs = parse_arrayN n2 s2 pos rs := by
  simp only [parse_arrayN]
  rw [read_dataN_congr hag hnc hp (.STRING [])]
  cases hv1 : read_dataN n2 s2 pos (.STRING []) with
  | err e => rfl
  | crash c => rfl
  | nofuel => rfl
  | ok v1 =>
    obtain ⟨d1, p1⟩ := v1
    have hp1 : pos ≤ p1 := read_dataN_mono hv1
    cases d1 <;> try rfl
    rename_i name
    dsimp only []
    rw [read_dataN_congr hag hnc (show k ≤ p1 by omega) (.CHAR 0)]
    cases hv2 : read_dataN n2 s2 p1 (.CHAR 0) with
    | err e => rfl
    | crash c => rfl
    | nofuel => rfl
    | ok v2 =>
      obtain ⟨d2, p2⟩ := v2
      have hp2 : p1 ≤ p2 := read_dataN_mono hv2
      cases d2 <;> try rfl
      rename_i key
      dsimp only []
      by_cases hk : (!(DmapType.all_keys.contains key)) = true
      · rw [if_pos hk, if_pos hk]
      · rw [if_neg hk, if_neg hk]
        cases ht : DmapType.get_type_from_key key with
        | err e => rfl
        | crash c => rfl
        | nofuel => rfl
        | ok data_type =>
          dsimp only []
          rw [read_dataN_congr hag hnc (show k ≤ p2 by omega) (.INT 0)]
          cases hv3 : read_dataN n2 s2 p2 (.INT 0) with
          | err e => rfl
          | crash c => rfl
          | nofuel => rfl
          | ok v3 =>
            obtain ⟨d3, p3⟩ := v3
            have hp3 : p2 ≤ p3 := read_dataN_mono hv3
            cases d3 <;> try rfl
            rename_i nd
            dsimp only []
            by_cases h1 : nd > rs
            · rw [if_pos h1, if_pos h1]
            · rw [if_neg h1, if_neg h1]
              by_cases h2 : nd ≤ 0
              · rw [if_pos h2, if_pos h2]
              · rw [if_neg h2, if_neg h2]
                rw [read_dims_loopN_congr hag hnc rs nd.toNat p3 [] 1
                  (show k ≤ p3 by omega)]
                cases hdl : read_dims_loopN n2 s2 rs nd.toNat p3 [] 1 with
                | err e => rfl
                | crash c => rfl
                | nofuel => rfl
                | ok v4 =>
                  obtain ⟨⟨dims, total⟩, p4⟩ := v4
                  have hp4 : p3 ≤ p4 :=
                    read_dims_loopN_mono n2 s2 rs nd.toNat p3 [] 1 (dims, total) p4 hdl
                  dsimp only []
                  by_cases h3 : total > rs
                  · rw [if_pos h3, if_pos h3]
                  · rw [if_neg h3, if_neg h3]
                    by_cases h4 : wrap32 (total * (data_type.get_num_bytes : Int)) > rs
                    · rw [if_pos h4, if_pos h4]
                    · rw [if_neg h4, if_neg h4]
                      rw [read_elems_loopN_congr hag hnc data_type total.toNat p4 []
                        (show k ≤ p4 by omega)]

/-- The scalar loop depends only on the buffer length and the bytes at or
after the cursor. -/
theorem parse_scalars_loopN_congr {k : Nat} {s1 s2 : List Nat} {n1 n2 : NestedFn}
    (hag : agreeFrom k s1 s2) (hnc : NestedCongr k s1 s2 n1 n2)
    (hm2 : NestedMono n2) :
    ∀ (n pos : Nat) (lst : List (List Nat)) (mp : Smap RawDmapScalar), k ≤ pos →
      parse_scalars_loopN n1 s1 n pos lst mp = parse_scalars_loopN n2 s2 n pos lst mp := by
  intro n
  induction n with
  | zero => intro pos lst mp hp; rfl
  | succ m ih =>
    intro pos lst mp hp
    simp only [parse_scalars_loopN]
    rw [parse_scalarN_congr hag hnc hp]
    cases hv : parse_scalarN n2 s2 pos with
    | err e => rfl
    | crash c => rfl
    | nofuel => rfl
    | ok v =>
      obtain ⟨⟨name, val⟩, p⟩ := v
      have hpm : pos ≤ p := parse_scalarN_mono hm2 hv
      exact ih p (lst ++ [name]) (mp.insert name val) (by omega)

/-- The array loop depends only on the buffer length and the bytes at or
after the cursor. -/
theorem parse_arrays_loopN_congr {k : Nat} {s1 s2 : List Nat} {n1 n2 : NestedFn}
    (hag : agreeFrom k s1 s2) (hnc : NestedCongr k s1 s2 n1 n2) (rs : Int) :
    ∀ (n pos : Nat) (lst : List (List Nat)) (mp : Smap RawDmapArray), k ≤ pos →
      parse_arrays_loopN n1 s1 rs n pos lst mp =
        parse_arrays_loopN n2 s2 rs n pos lst mp := by
  intro n
  induction n with
  | zero => intro pos lst mp hp; rfl
  | succ m ih =>
    intro pos lst mp hp
    simp only [parse_arrays_loopN]
    rw [parse_arrayN_congr hag hnc hp rs]
    cases hv : parse_arrayN n2 s2 pos rs with
    | err e => rfl
    | crash c => rfl
    | nofuel => rfl
    | ok v =>
      obtain ⟨⟨name, val⟩, p⟩ := v
      have hpm : pos ≤ p := parse_arrayN_mono hv
      exact ih p (lst ++ [name]) (mp.insert name val) (by omega)



/-- Closed form of an `INT`-shaped read: bounds checks, then the decoded
value and the cursor moved 4 bytes. -/
theorem read_dataN_INT (nested : NestedFn) (s : List Nat) (p : Nat) :
    read_dataN nested s p (.INT 0) =
      if p > s.length then .err (.Message .readDataCursorOOB)
      else if s.length - p < 4 then .err (.Message .readDataNotAligned)
      else .ok (.INT (toSigned 32 (leVal (sliceN s p 4))), p + 4) := rfl

/-- `parse_record` reads the 4-byte code field but its outcome does not
depend on those bytes: buffers of equal length agreeing from `pos + 4`
onward decode identically. -/
theorem parse_recordN_code_congr {s1 s2 : List Nat} {n1 n2 : NestedFn} {pos : Nat}
    (hag : agreeFrom (pos + 4) s1 s2) (hnc : NestedCongr (pos + 4) s1 s2 n1 n2)
    (hm2 : NestedMono n2) :
    parse_recordN n1 s1 pos = parse_recordN n2 s2 pos := by
  have e1 := read_dataN_INT n1 s1 pos
  have e2 := read_dataN_INT n2 s2 pos
  rw [hag.1] at e1
  simp only [parse_recordN]
  rw [e1, e2]
  by_cases h1 : pos > s2.length
  · rw [if_pos h1, if_pos h1]
  · rw [if_neg h1, if_neg h1]
    by_cases h2 : s2.length - pos < 4
    · rw [if_pos h2, if_pos h2]
    · rw [if_neg h2, if_neg h2]
      dsimp only []
      rw [read_dataN_congr hag hnc (le_refl (pos + 4)) (.INT 0)]
      cases hv2 : read_dataN n2 s2 (pos + 4) (.INT 0) with
      | err e => rfl
      | crash c => rfl
      | nofuel => rfl
      | ok v2 =>
        obtain ⟨d2, p2⟩ := v2
        have hp2 : pos + 4 ≤ p2 := read_dataN_mono hv2
        cases d2 <;> try rfl
        rename_i size
        dsimp only []
        rw [hag.1]
        by_cases hsz : toUnsigned 64 size > s2.length - p2 + 2 * (DmapType.INT 0).get_num_bytes
        · rw [if_pos hsz, if_pos hsz]
        · rw [if_neg hsz, if_neg hsz]
          by_cases hsp : size ≤ 0
          · rw [if_pos hsp, if_pos hsp]
          · rw [if_neg hsp, if_neg hsp]
            rw [read_dataN_congr hag hnc (show pos + 4 ≤ p2 by omega) (.INT 0)]
            cases hv3 : read_dataN n2 s2 p2 (.INT 0) with
            | err e => rfl
            | crash c => rfl
            | nofuel => rfl
            | ok v3 =>
              obtain ⟨d3, p3⟩ := v3
              have hp3 : p2 ≤ p3 := read_dataN_mono hv3
              cases d3 <;> try rfl
              rename_i nS
              dsimp only []
              rw [read_dataN_congr hag hnc (show pos + 4 ≤ p3 by omega) (.INT 0)]
              cases hv4 : read_dataN n2 s2 p3 (.INT 0) with
              | err e => rfl
              | crash c => rfl
              | nofuel => rfl
              | ok v4 =>
                obtain ⟨d4, p4⟩ := v4
                have hp4 : p3 ≤ p4 := read_dataN_mono hv4
                cases d4 <;> try rfl
                rename_i nA
                dsimp only []
                by_cases hns : nS ≤ 0
                · rw [if_pos hns, if_pos hns]
                · rw [if_neg hns, if_neg hns]
                  by_cases hna : nA ≤ 0
                  · rw [if_pos hna, if_pos hna]
                  · rw [if_neg hna, if_neg hna]
                    by_cases hcnt : wrap32 (nS + nA) > size
                    · rw [if_pos hcnt, if_pos hcnt]
                    · rw [if_neg hcnt, if_neg hcnt]
                      rw [parse_scalars_loopN_congr hag hnc hm2 nS.toNat p4 [] Smap.empty
                        (show pos + 4 ≤ p4 by omega)]
                      cases hls : parse_scalars_loopN n2 s2 nS.toNat p4 [] Smap.empty with
                      | err e => rfl
                      | crash c => rfl
                      | nofuel => rfl
                      | ok v5 =>
                        obtain ⟨⟨slist, mpS⟩, p5⟩ := v5
                        have hp5 : p4 ≤ p5 :=
                          parse_scalars_loopN_mono hm2 s2 nS.toNat p4 [] Smap.empty
                            ((slist, mpS), p5) hls
                        dsimp only []
                        rw [parse_arrays_loopN_congr hag hnc size nA.toNat p5 [] Smap.empty
                          (show pos + 4 ≤ p5 by omega)]

/-- The fueled `parse_record` at any nesting depth ignores the code
field's bytes. -/
theorem parse_record_congr : ∀ (fuel : Nat) (s1 s2 : List Nat) (pos : Nat),
    agreeFrom (pos + 4) s1 s2 →
    parse_record fuel s1 pos = parse_record fuel s2 pos := by
  intro fuel
  induction fuel with
  | zero =>
    intro s1 s2 pos hag
    exact parse_recordN_code_congr hag (fun p hp => rfl) nofuel_mono
  | succ f ih =>
    intro s1 s2 pos hag
    exact parse_recordN_code_congr hag
      (fun p hp => ih s1 s2 p (agreeFrom_mono hag (by omega)))
      (parse_record_mono f)

/-- A decidable bounded check implies byte agreement outside a window
(indices past the end agree by the `getD` default). -/
theorem agree_outside_of_check (s1 s2 : List Nat) (a b : Nat)
    (hlen : s1.length = s2.length)
    (hchk : (List.range s1.length).all
      (fun i => decide (a ≤ i ∧ i < b) || (s1.getD i 0 == s2.getD i 0)) = true) :
    ∀ i, ¬ (a ≤ i ∧ i < b) → s1.getD i 0 = s2.getD i 0 := by
  intro i hi
  by_cases hl : i < s1.length
  · have hx := List.all_eq_true.mp hchk i (List.mem_range.mpr hl)
    simp only [Bool.or_eq_true, decide_eq_true_eq, beq_iff_eq] at hx
    rcases hx with hx | hx
    · exact absurd hx hi
    · exact hx
  · rw [List.getD_eq_default, List.getD_eq_default]
    · omega
    · omega

/-- C9: the record's 4-byte code field is read but never validated: any
two buffers of equal length that are identical outside the code field's
four bytes decode to the same outcome — both succeed with equal records
or both fail with the same error. -/
theorem C9_code_field_irrelevant (fuel : Nat) (s1 s2 : List Nat) (pos : Nat)
    (hlen : s1.length = s2.length)
    (hagree : ∀ i, ¬ (pos ≤ i ∧ i < pos + 4) → s1.getD i 0 = s2.getD i 0) :
    parse_record fuel s1 pos = parse_record fuel s2 pos :=
  parse_record_congr fuel s1 s2 pos ⟨hlen, fun i hi => hagree i (by omega)⟩

set_option maxRecDepth 1000000 in
/-- Witness for C9: the scenario-5 bytes with a garbage code field parse
to the same result. -/
theorem C9_code_field_irrelevant_witness :
    parse_record 1 bytes39 0 = parse_record 1 c9buf 0 :=
  C9_code_field_irrelevant 1 bytes39 c9buf 0 (by decide)
    (agree_outside_of_check bytes39 c9buf 0 4 (by decide) (by decide))


end Backscatter
